import Mathlib

/-!
Verification of the structure-layout resolver of the `untangle` repository.

The development shallowly embeds `symex_tool/extract.py` (the layout
resolver `parse_struct_ptr` and the catalogue builder `extract_structs`)
and `symex_tool/utils.py` (the pickle cache wrappers `save_object` /
`restore_object`).  Python strings are modelled as Lean `String`s and
manipulated through code-point lists; Python integers are `Int`;
Python dicts are insertion-ordered association lists with
overwrite-in-place semantics; exceptions are modelled with `Except`.
The breadth-first queue of `parse_struct_ptr` mutates shared `Pointer`
objects, which is modelled by an arena of nodes addressed by index.
-/

set_option maxHeartbeats 2000000
set_option linter.unusedVariables false

/-- Python `dict` lookup: first (unique) matching key. -/
def dictLookup {κ α : Type} [DecidableEq κ] (m : List (κ × α)) (k : κ) : Option α :=
  match m with
  | [] => none
  | (k', v) :: rest => if k' = k then some v else dictLookup rest k

/-- Python `k in d` membership test. -/
def dictContains {κ α : Type} [DecidableEq κ] (m : List (κ × α)) (k : κ) : Bool :=
  (dictLookup m k).isSome

/-- Python `d[k] = v`: replace the value in place if the key exists, else append. -/
def dictInsert {κ α : Type} [DecidableEq κ] (m : List (κ × α)) (k : κ) (v : α) : List (κ × α) :=
  match m with
  | [] => [(k, v)]
  | (k', v') :: rest => if k' = k then (k, v) :: rest else (k', v') :: dictInsert rest k v

/-- Python `x in l` for a list of strings. -/
def listContains (l : List String) (s : String) : Bool :=
  l.any (fun x => x = s)

/-- Python exceptions that the embedded code can raise. -/
inductive PyErr where
  | valueError
  | zeroDivisionError
  | keyError
deriving Repr, DecidableEq

/-- Python `s.endswith(c)` for a single character `c`. -/
def pyEndsWithChar (s : String) (c : Char) : Bool :=
  match s.data.getLast? with
  | some c' => c' = c
  | none => false

/-- Helper for `pyRfind`. -/
def pyRfindAux (c : Char) : List Char → Int → Int → Int
  | [], _, acc => acc
  | x :: xs, i, acc => pyRfindAux c xs (i + 1) (if x = c then i else acc)

/-- Python `s.rfind(c)`: highest index of `c` in `s`, or `-1`. -/
def pyRfind (s : String) (c : Char) : Int :=
  pyRfindAux c s.data 0 (-1)

/-- Python slice `l[i:j]` index normalisation: negative indices count from the
end, and the result is clamped to `[0, len]`. -/
def pySliceIdx (n : Nat) (k : Int) : Nat :=
  if k < 0 then (max (k + n) 0).toNat else (min k n).toNat

/-- Python slice `s[i:j]` (step 1) on strings. -/
def pySlice (s : String) (i j : Int) : String :=
  let l := s.data
  ⟨(l.take (pySliceIdx l.length j)).drop (pySliceIdx l.length i)⟩

/-- Characters removed by Python `str.strip()`. -/
def pyIsSpace (c : Char) : Bool :=
  c = ' ' ∨ c = '\t' ∨ c = '\n' ∨ c = '\r' ∨ c = '\x0b' ∨ c = '\x0c'

/-- Python `s.strip()`. -/
def pyStrip (s : String) : String :=
  ⟨((s.data.dropWhile pyIsSpace).reverse.dropWhile pyIsSpace).reverse⟩

/-- Digit accumulator for `pyInt`. -/
def pyDigitsAux : List Char → Nat → Option Nat
  | [], acc => some acc
  | c :: cs, acc =>
    if '0' ≤ c ∧ c ≤ '9' then pyDigitsAux cs (acc * 10 + (c.toNat - '0'.toNat))
    else none

/-- A non-empty run of decimal digits. -/
def pyDigits : List Char → Option Nat
  | [] => none
  | l => pyDigitsAux l 0

/-- Python `int(s)`: strip whitespace, optional sign, decimal digits;
anything else raises `ValueError`. -/
def pyInt (s : String) : Except PyErr Int :=
  match (pyStrip s).data with
  | '+' :: rest =>
    match pyDigits rest with
    | some n => .ok (Int.ofNat n)
    | none => .error .valueError
  | '-' :: rest =>
    match pyDigits rest with
    | some n => .ok (-(Int.ofNat n))
    | none => .error .valueError
  | l =>
    match pyDigits l with
    | some n => .ok (Int.ofNat n)
    | none => .error .valueError

/-- Python `a // b` on ints: floor division, `ZeroDivisionError` on zero. -/
def pyFloorDiv (a b : Int) : Except PyErr Int :=
  if b = 0 then .error .zeroDivisionError else .ok (Int.fdiv a b)

/-- Python `range(k)` as a list of ints (empty when `k ≤ 0`). -/
def pyRange (k : Int) : List Int :=
  (List.range k.toNat).map Int.ofNat

/-- `StructField` namedtuple of `extract.py`: `(name, type, offset, size)`. -/
structure StructField where
  name : String
  type : String
  offset : Int
  size : Int
deriving Repr, DecidableEq

/-- `Struct` namedtuple of `extract.py`: `(size, fields)`. -/
structure Struct where
  size : Int
  fields : List StructField
deriving Repr, DecidableEq

/-- The structure catalogue: the Python dict mapping struct name to `Struct`. -/
abbrev Structs := List (String × Struct)

/-- A slot held in a `Pointer`'s `fields` dict: either a plain int
(a scalar field size) or a child `Pointer` object (given by arena index). -/
inductive Slot where
  | scalar (sz : Int)
  | nested (child : Nat)
deriving Repr, DecidableEq

/-- Modelled from the spec: the `Pointer` class (`symex_tool/variable.py`,
not present under `src/`), the spec's LayoutNode: a type name, the declared
total size, and a dict from byte offset to field slot.  Child `Pointer`
objects are stored as indices into an arena of nodes. -/
structure PNode where
  name : String
  size : Int
  fields : List (Int × Slot)
deriving Repr, DecidableEq

/-- `INTS` of `extract.py`. -/
def INTS : List String :=
  ["char", "short", "int", "long", "long long"]

/-- `PRIMITIVE_TYPES` of `extract.py` after the module-level loop over `INTS`:
the base set plus each integer type plain, pointer, unsigned, unsigned pointer. -/
def PRIMITIVE_TYPES : List String :=
  ["float", "double", "long double", "bool", "(unnamed enum)", "..(*)(..)", "void"]
    ++ (INTS.map (fun t => [t, t ++ " *", "unsigned " ++ t, "unsigned " ++ t ++ " *"])).flatten

/-- A successful dict lookup means the key occurs among the keys
(used only to justify termination of the cycle-check walk). -/
def dictLookup_mem_keys {κ α : Type} [DecidableEq κ] :
    (m : List (κ × α)) → (k : κ) → (v : α) → dictLookup m k = some v → k ∈ m.map Prod.fst
  | [], k, v, h => by simp [dictLookup] at h
  | (k', v') :: rest, k, v, h => by
    by_cases hk : k' = k
    · subst hk
      exact List.mem_map.mpr ⟨(k', v'), List.mem_cons_self _ _, rfl⟩
    · simp only [dictLookup] at h
      rw [if_neg hk] at h
      exact List.mem_cons_of_mem _ (dictLookup_mem_keys rest k v h)

/-- The termination measure of the `while par in parent` loop of the cycle
check: the parent keys not yet recorded in `seen`, plus one when `par` is
itself still a key. -/
def walkMeasure (parentM : List (String × String)) (par : String) (seen : List String) : Nat :=
  ((parentM.map Prod.fst).toFinset \ seen.toFinset).card
    + (if par ∈ parentM.map Prod.fst then 1 else 0)

/-- The `while par in parent` loop of `parse_struct_ptr`'s cycle check,
written with a step bound so that it evaluates definitionally.  `seen`
starts as Python's `set(par)` — the set of the *characters* of the target
type name (a quirk of the source) — and accumulates visited names.
Returns the final value of `inf`.  `walkSeenF_stable` below proves the
bound used by `walkSeen` sufficient, so the `fuel = 0` default is never
the returned value. -/
def walkSeenF (parentM : List (String × String)) (ftype : String) :
    Nat → String → List String → Bool
  | 0, _, _ => false
  | fuel + 1, par, seen =>
    match dictLookup parentM par with
    | none => false
    | some newpar =>
      if newpar = ftype then true
      else if listContains seen newpar then true
      else if newpar = par then false
      else walkSeenF parentM ftype fuel newpar (newpar :: seen)

/-- The cycle-check loop, run with a provably sufficient step bound. -/
def walkSeen (parentM : List (String × String)) (ftype : String) (par : String)
    (seen : List String) : Bool :=
  walkSeenF parentM ftype (parentM.length + 1) par seen

/-- The mutable state of `parse_struct_ptr`'s breadth-first loop: the arena of
`Pointer` objects created so far (the root is index 0), the queue `q` of
pending arena indices, and the `parent` dict of the cycle check. -/
structure BfsState where
  nodes : List PNode
  queue : List Nat
  parentM : List (String × String)
deriving Repr, DecidableEq

/-- `cur.fields[off] = sl` on the node at arena index `idx`. -/
def setField (st : BfsState) (idx : Nat) (off : Int) (sl : Slot) : BfsState :=
  match st.nodes.get? idx with
  | none => st
  | some nd => { st with nodes := st.nodes.set idx { nd with fields := dictInsert nd.fields off sl } }

/-- The fallback loop of `parse_struct_ptr`:
`for i in range(array_sz): cur.fields[foff + i * fsize] = fsize`. -/
def scalarLoopGo (idx : Nat) (foff fsize : Int) : BfsState → List Int → BfsState
  | st, [] => st
  | st, i :: is => scalarLoopGo idx foff fsize (setField st idx (foff + i * fsize) (.scalar fsize)) is

/-- `for i in range(array_sz)` writing one scalar slot per array element. -/
def scalarLoop (idx : Nat) (foff fsize array_sz : Int) (st : BfsState) : BfsState :=
  scalarLoopGo idx foff fsize st (pyRange array_sz)

/-- One iteration of the child-creating loop of `parse_struct_ptr`:
`if ftype in structs: p = Pointer(ftype, structs[ftype].size, {});
cur.fields[foff + i*fsize] = p; q.append(p)`. -/
def spawnOne (structs : Structs) (idx : Nat) (ftype : String) (foff fsize : Int)
    (st : BfsState) (i : Int) : BfsState :=
  match dictLookup structs ftype with
  | none => st
  | some sdef =>
    let childIdx := st.nodes.length
    let st := { st with nodes := st.nodes ++ [{ name := ftype, size := sdef.size, fields := [] }] }
    let st := setField st idx (foff + i * fsize) (.nested childIdx)
    { st with queue := st.queue ++ [childIdx] }

/-- The child-creating loop of `parse_struct_ptr` over `range(array_sz)`. -/
def spawnLoopGo (structs : Structs) (idx : Nat) (ftype : String) (foff fsize : Int) :
    BfsState → List Int → BfsState
  | st, [] => st
  | st, i :: is => spawnLoopGo structs idx ftype foff fsize (spawnOne structs idx ftype foff fsize st i) is

/-- `for i in range(array_sz)` creating one child `Pointer` per array element. -/
def spawnLoop (structs : Structs) (idx : Nat) (ftype : String) (foff fsize array_sz : Int)
    (st : BfsState) : BfsState :=
  spawnLoopGo structs idx ftype foff fsize st (pyRange array_sz)

/-- The array-member detection of `parse_struct_ptr`:
`if ftype.endswith(']'): start = ftype.rfind('['); array_sz = int(...);
ftype = ftype[:start]; fsize //= array_sz`.  Returns
`(array_sz, ftype, fsize)` or the exception raised by `int` / `//`. -/
def arrayParse (ftype0 : String) (fsize0 : Int) : Except PyErr (Int × String × Int) :=
  if pyEndsWithChar ftype0 ']' then
    match pyInt (pySlice ftype0 (pyRfind ftype0 '[' + 1) (-1)) with
    | .error e => .error e
    | .ok array_sz =>
      match pyFloorDiv fsize0 array_sz with
      | .error e => .error e
      | .ok fsize => .ok (array_sz, pySlice ftype0 0 (pyRfind ftype0 '['), fsize)
  else
    .ok (1, ftype0, fsize0)

/-- `ftype = ftype[:-1].strip()`: the base type of a single-pointer field. -/
def strippedPtr (ftype1 : String) : String :=
  pyStrip (pySlice ftype1 0 (-1))

/-- The `inf` flag of `parse_struct_ptr`: the immediate self-reference check
followed by the `while par in parent` walk. -/
def infFlag (parentM : List (String × String)) (curName ftype2 : String) : Bool :=
  if ftype2 = curName then true
  else walkSeen parentM ftype2 ftype2 (ftype2.data.map Char.toString)

/-- The pointer / primitive / cycle analysis of `parse_struct_ptr` on the
array-stripped type, ending in either the child-spawning loop or the
scalar fallback loop. -/
def ptrStep (structs : Structs) (idx : Nat) (curName : String) (st : BfsState)
    (foff : Int) (array_sz : Int) (ftype1 : String) (fsize : Int) : BfsState :=
  if pyEndsWithChar ftype1 '*' then
    if ¬ pyEndsWithChar (strippedPtr ftype1) '*' then
      if ¬ listContains PRIMITIVE_TYPES (strippedPtr ftype1) then
        if ¬ infFlag st.parentM curName (strippedPtr ftype1) then
          spawnLoop structs idx (strippedPtr ftype1) foff fsize array_sz
            { st with parentM := dictInsert st.parentM (strippedPtr ftype1) curName }
        else
          scalarLoop idx foff fsize array_sz st
      else
        scalarLoop idx foff fsize array_sz st
    else
      scalarLoop idx foff fsize array_sz st
  else
    scalarLoop idx foff fsize array_sz st

/-- The body of `for f in structs[cur.name].fields` in `parse_struct_ptr`,
processing a single field of the node at arena index `idx` (whose `name`
attribute is `curName`).  Returns the updated state, or the Python exception
that aborts the whole call. -/
def processField (structs : Structs) (idx : Nat) (curName : String)
    (st : BfsState) (f : StructField) : Except PyErr BfsState :=
  if f.type = "struct <unnamed>" ∨ f.type = "union <unnamed>" then
    .ok (setField st idx f.offset (.scalar f.size))
  else
    match arrayParse f.type f.size with
    | .error e => .error e
    | .ok (array_sz, ftype1, fsize) =>
      .ok (ptrStep structs idx curName st f.offset array_sz ftype1 fsize)

/-- Iterating `processField` over a node's field list, aborting at the first
exception, exactly like the Python `for` loop. -/
def processFields (structs : Structs) (idx : Nat) (curName : String) :
    BfsState → List StructField → Except PyErr BfsState
  | st, [] => .ok st
  | st, f :: fs =>
    match processField structs idx curName st f with
    | .error e => .error e
    | .ok st' => processFields structs idx curName st' fs

/-- Processing one dequeued node: `for f in structs[cur.name].fields: ...`.
A missing arena index or catalogue entry would be a Python `KeyError`
(never reached from `parse_struct_ptr`'s reachable states). -/
def processNode (structs : Structs) (idx : Nat) (st : BfsState) : Except PyErr BfsState :=
  match st.nodes.get? idx with
  | none => .error .keyError
  | some cur =>
    match dictLookup structs cur.name with
    | none => .error .keyError
    | some sdef => processFields structs idx cur.name st sdef.fields

/-- Outcome of running the `while q` loop for a bounded number of iterations. -/
inductive BfsOut where
  | timeout (st : BfsState)
  | raised (e : PyErr)
  | done (st : BfsState)
deriving Repr, DecidableEq

/-- The `while q` loop of `parse_struct_ptr`, with `fuel` bounding the number
of queue pops (the loop itself has no such bound; `timeout` records that the
bound was hit with the queue still non-empty). -/
def bfsRun (structs : Structs) : Nat → BfsState → BfsOut
  | 0, st => .timeout st
  | fuel + 1, st =>
    match st.queue with
    | [] => .done st
    | idx :: rest =>
      match processNode structs idx { st with queue := rest } with
      | .error e => .raised e
      | .ok st' => bfsRun structs fuel st'

/-- Result of a `parse_struct_ptr` call: `none` (the Python `return None`),
a finished arena whose index 0 is the returned root, an uncaught exception,
or an out-of-fuel marker. -/
inductive PResult where
  | none
  | tree (nodes : List PNode)
  | raised (e : PyErr)
  | timeout
deriving Repr, DecidableEq

/-- `parse_struct_ptr(name, structs)` of `extract.py`, with `fuel` bounding
the number of iterations of the breadth-first loop. -/
def parse_struct_ptr (fuel : Nat) (name : String) (structs : Structs) : PResult :=
  match dictLookup structs name with
  | none => .none
  | some sdef =>
    let root : PNode := { name := name, size := sdef.size, fields := [] }
    match bfsRun structs fuel { nodes := [root], queue := [0], parentM := [] } with
    | .timeout _ => .timeout
    | .raised e => .raised e
    | .done st => .tree st.nodes

/-- A raw result row of the CodeQL structs query, as consumed by
`extract_structs`: `(s, sz, fname, ftype, foff, fsize)`, all text. -/
structure RawRow where
  s : String
  sz : String
  fname : String
  ftype : String
  foff : String
  fsize : String
deriving Repr, DecidableEq

/-- `if s not in structs: structs[s] = Struct(int(sz), [])` — create the
catalogue entry on first sight, its size from `int(sz)`. -/
def ensureEntry (structs : Structs) (r : RawRow) : Except PyErr Structs :=
  if dictContains structs r.s then .ok structs
  else
    match pyInt r.sz with
    | .error e => .error e
    | .ok szv => .ok (dictInsert structs r.s ⟨szv, []⟩)

/-- The body of `extract_structs`' row loop: skip the anonymous-struct
sentinel, create the catalogue entry on first sight, and append the field
(offset and size through `int`). -/
def extract_structs_row (structs : Structs) (r : RawRow) : Except PyErr Structs :=
  if r.s = "struct <unnamed>" then
    .ok structs
  else
    match ensureEntry structs r with
    | .error e => .error e
    | .ok structs1 =>
      match pyInt r.foff with
      | .error e => .error e
      | .ok foffv =>
        match pyInt r.fsize with
        | .error e => .error e
        | .ok fsizev =>
          match dictLookup structs1 r.s with
          | some sd =>
            .ok (dictInsert structs1 r.s
              ⟨sd.size, sd.fields ++ [⟨r.fname, r.ftype, foffv, fsizev⟩]⟩)
          | none => .error .keyError

/-- The row loop of `extract_structs`, folding rows into the catalogue. -/
def extract_structs_go (structs : Structs) : List RawRow → Except PyErr Structs
  | [] => .ok structs
  | r :: rs =>
    match extract_structs_row structs r with
    | .error e => .error e
    | .ok structs' => extract_structs_go structs' rs

/-- The catalogue-building core of `extract_structs` in `extract.py`
(the CodeQL query execution and the cache wrapper are external). -/
def extract_structs (rows : List RawRow) : Except PyErr Structs :=
  extract_structs_go [] rows

/-- Tokens of the serialized byte stream produced by `pickle.dump`, modelled
abstractly: a flat sequence of integer and string atoms. -/
inductive Tok where
  | int (i : Int)
  | nat (n : Nat)
  | str (s : String)
deriving Repr, DecidableEq

/-- Modelled from the spec: serialization of one catalogue field by the
cache layer (`save_object` / `pickle.dump` in `utils.py`, whose byte format
is external); the spec requires only a byte-for-byte reversible round-trip. -/
def pickleField (f : StructField) : List Tok :=
  [.str f.name, .str f.type, .int f.offset, .int f.size]

/-- Modelled from the spec: serialization of one catalogue entry. -/
def pickleEntry (e : String × Struct) : List Tok :=
  [.str e.1, .int e.2.size, .nat e.2.fields.length] ++ (e.2.fields.map pickleField).flatten

/-- Modelled from the spec: `save_object` for a catalogue — the pickle stream
written to the cache file. -/
def save_object (structs : Structs) : List Tok :=
  .nat structs.length :: (structs.map pickleEntry).flatten

/-- Deserialization of a run of `n` fields from the stream. -/
def unpickleFields : Nat → List Tok → Option (List StructField × List Tok)
  | 0, ts => some ([], ts)
  | n + 1, .str nm :: .str ty :: .int off :: .int sz :: ts => do
    let (fs, rest) ← unpickleFields n ts
    pure (⟨nm, ty, off, sz⟩ :: fs, rest)
  | _ + 1, _ => none

/-- Deserialization of a run of `n` catalogue entries from the stream. -/
def unpickleEntries : Nat → List Tok → Option (List (String × Struct) × List Tok)
  | 0, ts => some ([], ts)
  | n + 1, .str nm :: .int sz :: .nat nf :: ts => do
    let (fs, ts') ← unpickleFields nf ts
    let (es, rest) ← unpickleEntries n ts'
    pure ((nm, ⟨sz, fs⟩) :: es, rest)
  | _ + 1, _ => none

/-- Modelled from the spec: `restore_object`'s successful deserialization of
a cached catalogue (`pickle.load`); `none` models an undecodable stream. -/
def restore_object_parse (ts : List Tok) : Option Structs :=
  match ts with
  | .nat n :: rest =>
    match unpickleEntries n rest with
    | some (es, []) => some es
    | _ => none
  | _ => none

/-- Python exceptions relevant to the cache-read path of `utils.py`. -/
inductive CacheErr where
  | fileNotFoundError
  | eofError
  | unpicklingError
deriving Repr, DecidableEq

/-- The state of a cache file as seen by `restore_object`: missing, present
but truncated, present but corrupt, or a well-formed pickle of a value. -/
inductive CacheFile (α : Type) where
  | absent
  | truncatedBlob
  | corruptBlob
  | wellFormed (a : α)
deriving Repr, DecidableEq

/-- Modelled from the spec and the documented stdlib behaviour of
`open` + `pickle.load` in `restore_object`: a missing file raises
`FileNotFoundError`, a truncated stream raises `EOFError`, and a corrupt
blob raises `pickle.UnpicklingError`. -/
def pickleLoad {α : Type} : CacheFile α → Except CacheErr α
  | .absent => .error .fileNotFoundError
  | .truncatedBlob => .error .eofError
  | .corruptBlob => .error .unpicklingError
  | .wellFormed a => .ok a

/-- `restore_object` of `utils.py`: `try: return pickle.load(f)` with
`except FileNotFoundError: return None` and `except EOFError: return None`;
any other exception propagates to the caller. -/
def restore_object {α : Type} (file : CacheFile α) : Except CacheErr (Option α) :=
  match pickleLoad file with
  | .ok a => .ok (some a)
  | .error .fileNotFoundError => .ok none
  | .error .eofError => .ok none
  | .error e => .error e

/-- The root node of a finished `parse_struct_ptr` result. -/
def resultRoot (r : PResult) : Option PNode :=
  match r with
  | .tree ns => ns.get? 0
  | _ => none

/-- The slot stored at offset `off` of the node at arena index `i`. -/
def resultFieldAt (r : PResult) (i : Nat) (off : Int) : Option Slot :=
  match r with
  | .tree ns =>
    match ns.get? i with
    | some nd => dictLookup nd.fields off
    | none => none
  | _ => none

/-- Discriminator: the slot is a scalar entry. -/
def isScalarSlot : Option Slot → Bool
  | some (.scalar _) => true
  | _ => false

/-- Discriminator: the slot is a nested child pointer. -/
def isNestedSlot : Option Slot → Bool
  | some (.nested _) => true
  | _ => false

/-- The two-structure mutual cycle: `A` holds a `B *` field, `B` holds an
`A *` field. -/
def catAB : Structs :=
  [("A", ⟨8, [⟨"b", "B *", 0, 8⟩]⟩), ("B", ⟨8, [⟨"a", "A *", 0, 8⟩]⟩)]

/-- The spec's end-to-end example catalogue, with the field type spelled
`"struct Node *"` exactly as written there. -/
def catNodeLiteral : Structs :=
  [("Node", ⟨16, [⟨"next", "struct Node *", 0, 8⟩, ⟨"value", "int", 8, 4⟩]⟩)]

/-- The end-to-end example with the self-pointer spelled `"Node *"`, matching
the catalogue key. -/
def catNodeKeyed : Structs :=
  [("Node", ⟨16, [⟨"next", "Node *", 0, 8⟩, ⟨"value", "int", 8, 4⟩]⟩)]

/-- A structure with a pointer field to a type absent from the catalogue. -/
def catUnknownPtr : Structs :=
  [("S", ⟨8, [⟨"p", "Foo *", 0, 8⟩]⟩)]

/-- A structure with an empty array bracket in a field type. -/
def catBadArray : Structs :=
  [("S", ⟨8, [⟨"f", "int []", 0, 8⟩]⟩)]

/-- A structure with a zero-length array in a field type. -/
def catZeroArray : Structs :=
  [("S", ⟨8, [⟨"f", "int [0]", 0, 8⟩]⟩)]

/-- A structure with an `int [4]` field of reported total size 16 at offset 4. -/
def catIntArray : Structs :=
  [("T", ⟨24, [⟨"a", "int [4]", 4, 16⟩]⟩)]

/-- Two rows declaring structure `A` with inconsistent sizes 8 and 16. -/
def dupRows : List RawRow :=
  [⟨"A", "8", "f1", "int", "0", "4"⟩, ⟨"A", "16", "f2", "int", "4", "4"⟩]

/-- The catalogue `extract_structs` builds from `dupRows`. -/
def dupResult : Structs :=
  [("A", ⟨8, [⟨"f1", "int", 0, 4⟩, ⟨"f2", "int", 4, 4⟩]⟩)]

/-- Decidable equality on `Except`, for evaluating the embedded code on
concrete inputs. -/
instance instDecidableEqExcept {ε α : Type} [DecidableEq ε] [DecidableEq α] :
    DecidableEq (Except ε α)
  | .error e, .error e' =>
    if h : e = e' then isTrue (h ▸ rfl) else isFalse (fun hc => h (Except.error.inj hc))
  | .error e, .ok a => isFalse (fun hc => Except.noConfusion hc)
  | .ok a, .error e => isFalse (fun hc => Except.noConfusion hc)
  | .ok a, .ok a' =>
    if h : a = a' then isTrue (h ▸ rfl) else isFalse (fun hc => h (Except.ok.inj hc))

/-- The rows declaring structure `nm`, in encounter order. -/
def rowsFor (rows : List RawRow) (nm : String) : List RawRow :=
  rows.filter (fun r => r.s = nm)

/-- The `StructField` a row contributes (offset and size through `int`). -/
def rowField (r : RawRow) : Except PyErr StructField :=
  match pyInt r.foff with
  | .error e => .error e
  | .ok o =>
    match pyInt r.fsize with
    | .error e => .error e
    | .ok s => .ok ⟨r.fname, r.ftype, o, s⟩

/-- The field list a row sequence contributes, in order. -/
def rowFields : List RawRow → Except PyErr (List StructField)
  | [] => .ok []
  | r :: rs =>
    match rowField r with
    | .error e => .error e
    | .ok f =>
      match rowFields rs with
      | .error e => .error e
      | .ok fs => .ok (f :: fs)

/-- The invariant of `extract_structs`' row loop: each catalogue entry's
field list is exactly what its rows so far contribute, in order, and its
size comes from the first row that declared it. -/
def BuildInv (consumed : List RawRow) (acc : Structs) : Prop :=
  (∀ nm sd, dictLookup acc nm = some sd →
    nm ≠ "struct <unnamed>"
    ∧ rowFields (rowsFor consumed nm) = .ok sd.fields
    ∧ ∃ r rest, rowsFor consumed nm = r :: rest ∧ pyInt r.sz = .ok sd.size)
  ∧ (∀ nm, nm ≠ "struct <unnamed>" → dictLookup acc nm = Option.none →
      rowsFor consumed nm = [])

/-- Every queued arena index refers to an existing node. -/
def QueueOk (st : BfsState) : Prop :=
  ∀ i ∈ st.queue, i < st.nodes.length

/-- Every arena node's type name has a catalogue entry. -/
def NamesOk (structs : Structs) (st : BfsState) : Prop :=
  ∀ i nd, st.nodes.get? i = some nd → dictContains structs nd.name = true

/-- No field type in the catalogue carries an array-bracket suffix. -/
def NoBracketFields (structs : Structs) : Prop :=
  ∀ p ∈ structs, ∀ f ∈ p.2.fields, pyEndsWithChar f.type ']' = false

/-- A step extends the arena: old indices keep their node's name and size. -/
def MetaLe (st st' : BfsState) : Prop :=
  st.nodes.length ≤ st'.nodes.length ∧
  ∀ i, i < st.nodes.length →
    (st'.nodes.get? i).map PNode.name = (st.nodes.get? i).map PNode.name
    ∧ (st'.nodes.get? i).map PNode.size = (st.nodes.get? i).map PNode.size

/-! Theorems. -/

/-- Claim C2, counterexample: on the two-structure mutual cycle, resolving
`A` gives a root whose `Nested` child for `B` has its `A *` field expanded
as a further `Nested` node (index 2), not collapsed to `Scalar`: the cycle
is not broken one hop below the root. -/
theorem claim_C2_counterexample :
    parse_struct_ptr 10 "A" catAB
      = .tree [{ name := "A", size := 8, fields := [(0, Slot.nested 1)] },
               { name := "B", size := 8, fields := [(0, Slot.nested 2)] },
               { name := "A", size := 8, fields := [(0, Slot.scalar 8)] }]
    ∧ isScalarSlot (resultFieldAt (parse_struct_ptr 10 "A" catAB) 1 0) = false
    ∧ isNestedSlot (resultFieldAt (parse_struct_ptr 10 "A" catAB) 1 0) = true := by
  decide

/-- Claim C3, counterexample: on the catalogue written exactly as in the
spec's end-to-end example — the `next` field typed `"struct Node *"` — the
stripped base type `"struct Node"` differs from the key `"Node"`, so the
field is skipped entirely: the result has no slot at offset 0 at all and is
not the claimed `{0: Scalar(8), 8: Scalar(4)}`. -/
theorem claim_C3_counterexample :
    parse_struct_ptr 10 "Node" catNodeLiteral
      = .tree [{ name := "Node", size := 16, fields := [(8, Slot.scalar 4)] }]
    ∧ resultFieldAt (parse_struct_ptr 10 "Node" catNodeLiteral) 0 0 = Option.none := by
  decide

/-- Claim C4, counterexample: a field whose (pointer-stripped) base type
`"Foo"` is neither primitive nor in the catalogue produces no slot at all —
the owning node's fields dict stays empty instead of holding `Scalar(8)`. -/
theorem claim_C4_counterexample :
    parse_struct_ptr 10 "S" catUnknownPtr
      = .tree [{ name := "S", size := 8, fields := [] }]
    ∧ resultFieldAt (parse_struct_ptr 10 "S" catUnknownPtr) 0 0 = Option.none := by
  decide

/-- Claim C5, counterexample: a bracket suffix whose content is not an
integer (`"int []"`) raises `ValueError` from `int('')`, and a zero count
(`"int [0]"`) raises `ZeroDivisionError` from `fsize //= 0`; neither field
is degraded to scalar treatment. -/
theorem claim_C5_counterexample :
    parse_struct_ptr 5 "S" catBadArray = .raised .valueError
    ∧ parse_struct_ptr 5 "S" catZeroArray = .raised .zeroDivisionError := by
  decide

/-- Claim C6, counterexample: on `catBadArray` the root name `"S"` is
present in the catalogue, yet `parse_struct_ptr` returns no root node —
it raises `ValueError` instead of returning a `LayoutNode`. -/
theorem claim_C6_counterexample :
    dictContains catBadArray "S" = true
    ∧ parse_struct_ptr 7 "S" catBadArray = .raised .valueError
    ∧ resultRoot (parse_struct_ptr 7 "S" catBadArray) = Option.none := by
  decide

/-- Claim C8, counterexample: two rows declaring `A` with sizes 8 then 16
produce a catalogue entry of size 8 — the first-seen size, not the
last-seen one. -/
theorem claim_C8_counterexample :
    extract_structs dupRows = .ok dupResult
    ∧ (dictLookup dupResult "A").map Struct.size = some 8
    ∧ (dictLookup dupResult "A").map Struct.size ≠ some 16 := by
  decide

/-- Claim C10, counterexample: a corrupt cache blob makes `restore_object`
propagate `pickle.UnpicklingError` to its caller instead of returning the
absent value. -/
theorem claim_C10_counterexample :
    restore_object (.corruptBlob : CacheFile Nat) = .error .unpicklingError
    ∧ restore_object (.corruptBlob : CacheFile Nat) ≠ .ok none := by
  decide

theorem dictLookup_mem {κ α : Type} [DecidableEq κ] :
    ∀ (m : List (κ × α)) (k : κ) (v : α), dictLookup m k = some v → (k, v) ∈ m := by
  intro m
  induction m with
  | nil => intro k v h; simp [dictLookup] at h
  | cons hd tl ih =>
    intro k v h
    cases hd with
    | mk k1 v1 =>
      simp only [dictLookup] at h
      by_cases hk : k1 = k
      · subst hk
        rw [if_pos rfl] at h
        cases h
        exact List.mem_cons_self _ _
      · rw [if_neg hk] at h
        exact List.mem_cons_of_mem _ (ih k v h)

theorem dictContains_some {κ α : Type} [DecidableEq κ] (m : List (κ × α)) (k : κ)
    (h : dictContains m k = true) : ∃ v, dictLookup m k = some v := by
  unfold dictContains at h
  cases hl : dictLookup m k with
  | none => rw [hl] at h; simp [Option.isSome] at h
  | some v => exact ⟨v, rfl⟩

theorem metaLe_refl (st : BfsState) : MetaLe st st :=
  ⟨le_refl _, fun i hi => ⟨rfl, rfl⟩⟩

theorem metaLe_trans {a b c : BfsState} (h1 : MetaLe a b) (h2 : MetaLe b c) : MetaLe a c := by
  refine ⟨le_trans h1.1 h2.1, fun i hi => ?_⟩
  have hb := h1.2 i hi
  have hc := h2.2 i (lt_of_lt_of_le hi h1.1)
  exact ⟨hc.1.trans hb.1, hc.2.trans hb.2⟩

theorem setField_queue (st : BfsState) (idx : Nat) (off : Int) (sl : Slot) :
    (setField st idx off sl).queue = st.queue := by
  unfold setField
  cases st.nodes.get? idx <;> rfl

theorem setField_parentM (st : BfsState) (idx : Nat) (off : Int) (sl : Slot) :
    (setField st idx off sl).parentM = st.parentM := by
  unfold setField
  cases st.nodes.get? idx <;> rfl

theorem setField_length (st : BfsState) (idx : Nat) (off : Int) (sl : Slot) :
    (setField st idx off sl).nodes.length = st.nodes.length := by
  unfold setField
  cases st.nodes.get? idx with
  | none => rfl
  | some nd => simp

theorem setField_meta (st : BfsState) (idx : Nat) (off : Int) (sl : Slot) (i : Nat) :
    ((setField st idx off sl).nodes.get? i).map PNode.name = (st.nodes.get? i).map PNode.name
    ∧ ((setField st idx off sl).nodes.get? i).map PNode.size = (st.nodes.get? i).map PNode.size := by
  unfold setField
  cases h : st.nodes.get? idx with
  | none => exact ⟨rfl, rfl⟩
  | some nd =>
    by_cases hi : idx = i
    · subst hi
      have hlt : idx < st.nodes.length := by
        by_contra hge
        rw [List.get?_eq_none.mpr (le_of_not_lt hge)] at h
        cases h
      rw [List.get?_set_eq_of_lt _ hlt, h]
      exact ⟨rfl, rfl⟩
    · rw [List.get?_set_ne _ _ hi]
      exact ⟨rfl, rfl⟩

theorem setField_metaLe (st : BfsState) (idx : Nat) (off : Int) (sl : Slot) :
    MetaLe st (setField st idx off sl) := by
  refine ⟨le_of_eq (setField_length st idx off sl).symm, fun i hi => setField_meta st idx off sl i⟩

theorem scalarLoopGo_queue (idx : Nat) (foff fsize : Int) :
    ∀ (l : List Int) (st : BfsState), (scalarLoopGo idx foff fsize st l).queue = st.queue := by
  intro l
  induction l with
  | nil => intro st; rfl
  | cons i is ih =>
    intro st
    rw [scalarLoopGo, ih, setField_queue]

theorem scalarLoopGo_parentM (idx : Nat) (foff fsize : Int) :
    ∀ (l : List Int) (st : BfsState), (scalarLoopGo idx foff fsize st l).parentM = st.parentM := by
  intro l
  induction l with
  | nil => intro st; rfl
  | cons i is ih =>
    intro st
    rw [scalarLoopGo, ih, setField_parentM]

theorem scalarLoopGo_metaLe (idx : Nat) (foff fsize : Int) :
    ∀ (l : List Int) (st : BfsState), MetaLe st (scalarLoopGo idx foff fsize st l) := by
  intro l
  induction l with
  | nil => intro st; exact metaLe_refl st
  | cons i is ih =>
    intro st
    exact metaLe_trans (setField_metaLe st idx _ _) (ih _)

theorem scalarLoopGo_length (idx : Nat) (foff fsize : Int) :
    ∀ (l : List Int) (st : BfsState),
      (scalarLoopGo idx foff fsize st l).nodes.length = st.nodes.length := by
  intro l
  induction l with
  | nil => intro st; rfl
  | cons i is ih =>
    intro st
    rw [scalarLoopGo, ih, setField_length]


theorem scalarLoop_metaLe (idx : Nat) (foff fsize array_sz : Int) (st : BfsState) :
    MetaLe st (scalarLoop idx foff fsize array_sz st) :=
  scalarLoopGo_metaLe idx foff fsize (pyRange array_sz) st

theorem spawnOne_metaLe (structs : Structs) (idx : Nat) (ftype : String) (foff fsize : Int)
    (st : BfsState) (i : Int) : MetaLe st (spawnOne structs idx ftype foff fsize st i) := by
  unfold spawnOne
  cases dictLookup structs ftype with
  | none => exact metaLe_refl st
  | some sdef =>
    have h1 : MetaLe st { st with nodes := st.nodes ++ [⟨ftype, sdef.size, []⟩] } := by
      refine ⟨by simp, fun j hj => ?_⟩
      simp only
      rw [List.get?_append hj]
      exact ⟨rfl, rfl⟩
    have h2 := setField_metaLe { st with nodes := st.nodes ++ [⟨ftype, sdef.size, []⟩] } idx
      (foff + i * fsize) (.nested st.nodes.length)
    have h3 : MetaLe
        (setField { st with nodes := st.nodes ++ [⟨ftype, sdef.size, []⟩] } idx
          (foff + i * fsize) (.nested st.nodes.length))
        { setField { st with nodes := st.nodes ++ [⟨ftype, sdef.size, []⟩] } idx
            (foff + i * fsize) (.nested st.nodes.length) with
          queue := (setField { st with nodes := st.nodes ++ [⟨ftype, sdef.size, []⟩] } idx
            (foff + i * fsize) (.nested st.nodes.length)).queue ++ [st.nodes.length] } :=
      ⟨le_refl _, fun j hj => ⟨rfl, rfl⟩⟩
    exact metaLe_trans h1 (metaLe_trans h2 h3)

theorem spawnLoopGo_metaLe (structs : Structs) (idx : Nat) (ftype : String) (foff fsize : Int) :
    ∀ (l : List Int) (st : BfsState), MetaLe st (spawnLoopGo structs idx ftype foff fsize st l) := by
  intro l
  induction l with
  | nil => intro st; exact metaLe_refl st
  | cons i is ih =>
    intro st
    exact metaLe_trans (spawnOne_metaLe structs idx ftype foff fsize st i) (ih _)

theorem spawnLoop_metaLe (structs : Structs) (idx : Nat) (ftype : String)
    (foff fsize array_sz : Int) (st : BfsState) :
    MetaLe st (spawnLoop structs idx ftype foff fsize array_sz st) :=
  spawnLoopGo_metaLe structs idx ftype foff fsize (pyRange array_sz) st

theorem ptrStep_metaLe (structs : Structs) (idx : Nat) (cn : String) (st : BfsState)
    (foff array_sz : Int) (ftype1 : String) (fsize : Int) :
    MetaLe st (ptrStep structs idx cn st foff array_sz ftype1 fsize) := by
  unfold ptrStep
  split
  · split
    · split
      · split
        · refine metaLe_trans ?_ (spawnLoop_metaLe structs idx _ foff fsize array_sz _)
          exact ⟨le_refl _, fun j hj => ⟨rfl, rfl⟩⟩
        · exact scalarLoop_metaLe idx foff fsize array_sz st
      · exact scalarLoop_metaLe idx foff fsize array_sz st
    · exact scalarLoop_metaLe idx foff fsize array_sz st
  · exact scalarLoop_metaLe idx foff fsize array_sz st

theorem processField_metaLe (structs : Structs) (idx : Nat) (cn : String)
    (st : BfsState) (f : StructField) (st' : BfsState)
    (h : processField structs idx cn st f = .ok st') : MetaLe st st' := by
  unfold processField at h
  split at h
  · cases h
    exact setField_metaLe st idx _ _
  · cases hap : arrayParse f.type f.size with
    | error e => rw [hap] at h; cases h
    | ok trip =>
      rw [hap] at h
      obtain ⟨asz, ft, fsz⟩ := trip
      cases h
      exact ptrStep_metaLe structs idx cn st f.offset asz ft fsz

theorem processFields_metaLe (structs : Structs) (idx : Nat) (cn : String) :
    ∀ (fs : List StructField) (st st' : BfsState),
      processFields structs idx cn st fs = .ok st' → MetaLe st st' := by
  intro fs
  induction fs with
  | nil =>
    intro st st' h
    cases h
    exact metaLe_refl st
  | cons f fsi ih =>
    intro st st' h
    rw [processFields] at h
    cases hpf : processField structs idx cn st f with
    | error e => rw [hpf] at h; cases h
    | ok st1 =>
      rw [hpf] at h
      exact metaLe_trans (processField_metaLe structs idx cn st f st1 hpf) (ih st1 st' h)

theorem processNode_metaLe (structs : Structs) (idx : Nat) (st st' : BfsState)
    (h : processNode structs idx st = .ok st') : MetaLe st st' := by
  unfold processNode at h
  split at h
  · cases h
  · split at h
    · cases h
    · exact processFields_metaLe structs idx _ _ st st' h

theorem bfsRun_done_metaLe (structs : Structs) :
    ∀ (fuel : Nat) (st st' : BfsState), bfsRun structs fuel st = .done st' →
      MetaLe st st' := by
  intro fuel
  induction fuel with
  | zero => intro st st' h; cases h
  | succ n ih =>
    intro st st' h
    rw [bfsRun] at h
    split at h
    · cases h
      exact metaLe_refl _
    · rename_i idx rest hq
      split at h
      · cases h
      · rename_i st1 hp
        have h1 : MetaLe st { st with queue := rest } := ⟨le_refl _, fun j hj => ⟨rfl, rfl⟩⟩
        exact metaLe_trans h1
          (metaLe_trans (processNode_metaLe structs idx _ st1 hp) (ih st1 st' h))

theorem namesOk_preserved (structs : Structs) (st st' : BfsState)
    (hnames : ∀ i, (st'.nodes.get? i).map PNode.name = (st.nodes.get? i).map PNode.name)
    (h : NamesOk structs st) : NamesOk structs st' := by
  intro i nd' h'
  have := hnames i
  rw [h'] at this
  cases hold : st.nodes.get? i with
  | none => rw [hold] at this; cases this
  | some nd0 =>
    rw [hold] at this
    have hname : nd'.name = nd0.name := by
      simpa using this
    rw [hname]
    exact h i nd0 hold

theorem setField_namesOk (structs : Structs) (st : BfsState) (idx : Nat) (off : Int) (sl : Slot)
    (h : NamesOk structs st) : NamesOk structs (setField st idx off sl) :=
  namesOk_preserved structs st _ (fun i => (setField_meta st idx off sl i).1) h

theorem setField_queueOk (st : BfsState) (idx : Nat) (off : Int) (sl : Slot)
    (h : QueueOk st) : QueueOk (setField st idx off sl) := by
  intro i hi
  rw [setField_queue] at hi
  rw [setField_length]
  exact h i hi

theorem scalarLoopGo_namesOk (structs : Structs) (idx : Nat) (foff fsize : Int) :
    ∀ (l : List Int) (st : BfsState), NamesOk structs st →
      NamesOk structs (scalarLoopGo idx foff fsize st l) := by
  intro l
  induction l with
  | nil => intro st h; exact h
  | cons i is ih =>
    intro st h
    exact ih _ (setField_namesOk structs st idx _ _ h)

theorem scalarLoopGo_queueOk (idx : Nat) (foff fsize : Int) :
    ∀ (l : List Int) (st : BfsState), QueueOk st →
      QueueOk (scalarLoopGo idx foff fsize st l) := by
  intro l
  induction l with
  | nil => intro st h; exact h
  | cons i is ih =>
    intro st h
    exact ih _ (setField_queueOk st idx _ _ h)

theorem spawnOne_namesOk (structs : Structs) (idx : Nat) (ftype : String) (foff fsize : Int)
    (st : BfsState) (i : Int) (h : NamesOk structs st) :
    NamesOk structs (spawnOne structs idx ftype foff fsize st i) := by
  unfold spawnOne
  cases hl : dictLookup structs ftype with
  | none => exact h
  | some sdef =>
    have happ : NamesOk structs { st with nodes := st.nodes ++ [⟨ftype, sdef.size, []⟩] } := by
      intro j nd hj
      simp only at hj
      by_cases hlt : j < st.nodes.length
      · rw [List.get?_append hlt] at hj
        exact h j nd hj
      · rw [List.get?_append_right (le_of_not_lt hlt)] at hj
        cases hz : j - st.nodes.length with
        | zero =>
          rw [hz] at hj
          cases hj
          unfold dictContains
          rw [hl]
          rfl
        | succ m =>
          rw [hz] at hj
          cases hj
    have hset := setField_namesOk structs _ idx (foff + i * fsize) (.nested st.nodes.length) happ
    intro j nd hj
    exact hset j nd hj

theorem spawnOne_queueOk (structs : Structs) (idx : Nat) (ftype : String) (foff fsize : Int)
    (st : BfsState) (i : Int) (h : QueueOk st) :
    QueueOk (spawnOne structs idx ftype foff fsize st i) := by
  unfold spawnOne
  cases hl : dictLookup structs ftype with
  | none => exact h
  | some sdef =>
    intro j hj
    simp only [setField_queue] at hj
    rw [setField_length]
    simp only [List.length_append, List.length_cons, List.length_nil]
    rcases List.mem_append.mp hj with hj1 | hj2
    · exact lt_of_lt_of_le (h j hj1) (by omega)
    · have : j = st.nodes.length := by simpa using hj2
      omega

theorem spawnLoopGo_namesOk (structs : Structs) (idx : Nat) (ftype : String) (foff fsize : Int) :
    ∀ (l : List Int) (st : BfsState), NamesOk structs st →
      NamesOk structs (spawnLoopGo structs idx ftype foff fsize st l) := by
  intro l
  induction l with
  | nil => intro st h; exact h
  | cons i is ih =>
    intro st h
    exact ih _ (spawnOne_namesOk structs idx ftype foff fsize st i h)

theorem spawnLoopGo_queueOk (structs : Structs) (idx : Nat) (ftype : String) (foff fsize : Int) :
    ∀ (l : List Int) (st : BfsState), QueueOk st →
      QueueOk (spawnLoopGo structs idx ftype foff fsize st l) := by
  intro l
  induction l with
  | nil => intro st h; exact h
  | cons i is ih =>
    intro st h
    exact ih _ (spawnOne_queueOk structs idx ftype foff fsize st i h)

theorem ptrStep_namesOk (structs : Structs) (idx : Nat) (cn : String) (st : BfsState)
    (foff array_sz : Int) (ftype1 : String) (fsize : Int) (h : NamesOk structs st) :
    NamesOk structs (ptrStep structs idx cn st foff array_sz ftype1 fsize) := by
  unfold ptrStep
  split
  · split
    · split
      · split
        · exact spawnLoopGo_namesOk structs idx _ foff fsize _ _ h
        · exact scalarLoopGo_namesOk structs idx foff fsize _ st h
      · exact scalarLoopGo_namesOk structs idx foff fsize _ st h
    · exact scalarLoopGo_namesOk structs idx foff fsize _ st h
  · exact scalarLoopGo_namesOk structs idx foff fsize _ st h

theorem ptrStep_queueOk (structs : Structs) (idx : Nat) (cn : String) (st : BfsState)
    (foff array_sz : Int) (ftype1 : String) (fsize : Int) (h : QueueOk st) :
    QueueOk (ptrStep structs idx cn st foff array_sz ftype1 fsize) := by
  unfold ptrStep
  split
  · split
    · split
      · split
        · exact spawnLoopGo_queueOk structs idx _ foff fsize _ _ h
        · exact scalarLoopGo_queueOk idx foff fsize _ st h
      · exact scalarLoopGo_queueOk idx foff fsize _ st h
    · exact scalarLoopGo_queueOk idx foff fsize _ st h
  · exact scalarLoopGo_queueOk idx foff fsize _ st h

theorem processField_invariants (structs : Structs) (idx : Nat) (cn : String)
    (st : BfsState) (f : StructField) (st' : BfsState)
    (h : processField structs idx cn st f = .ok st') :
    (QueueOk st → QueueOk st') ∧ (NamesOk structs st → NamesOk structs st') := by
  unfold processField at h
  split at h
  · cases h
    exact ⟨setField_queueOk st idx _ _, setField_namesOk structs st idx _ _⟩
  · cases hap : arrayParse f.type f.size with
    | error e => rw [hap] at h; cases h
    | ok trip =>
      rw [hap] at h
      obtain ⟨asz, ft, fsz⟩ := trip
      cases h
      exact ⟨ptrStep_queueOk structs idx cn st f.offset asz ft fsz,
        ptrStep_namesOk structs idx cn st f.offset asz ft fsz⟩

theorem processFields_invariants (structs : Structs) (idx : Nat) (cn : String) :
    ∀ (fs : List StructField) (st st' : BfsState),
      processFields structs idx cn st fs = .ok st' →
      (QueueOk st → QueueOk st') ∧ (NamesOk structs st → NamesOk structs st') := by
  intro fs
  induction fs with
  | nil =>
    intro st st' h
    cases h
    exact ⟨id, id⟩
  | cons f fsi ih =>
    intro st st' h
    rw [processFields] at h
    cases hpf : processField structs idx cn st f with
    | error e => rw [hpf] at h; cases h
    | ok st1 =>
      rw [hpf] at h
      have h1 := processField_invariants structs idx cn st f st1 hpf
      have h2 := ih st1 st' h
      exact ⟨fun hq => h2.1 (h1.1 hq), fun hn => h2.2 (h1.2 hn)⟩

theorem arrayParse_ok_of_noBracket (ftype : String) (fsize : Int)
    (hb : pyEndsWithChar ftype ']' = false) :
    arrayParse ftype fsize = .ok (1, ftype, fsize) := by
  unfold arrayParse
  rw [hb]
  rfl

theorem processField_ok (structs : Structs) (idx : Nat) (cn : String)
    (st : BfsState) (f : StructField) (hb : pyEndsWithChar f.type ']' = false) :
    ∃ st', processField structs idx cn st f = .ok st' := by
  unfold processField
  split
  · exact ⟨_, rfl⟩
  · rw [arrayParse_ok_of_noBracket f.type f.size hb]
    exact ⟨_, rfl⟩

theorem processFields_ok (structs : Structs) (idx : Nat) (cn : String) :
    ∀ (fs : List StructField) (st : BfsState),
      (∀ f ∈ fs, pyEndsWithChar f.type ']' = false) →
      ∃ st', processFields structs idx cn st fs = .ok st' := by
  intro fs
  induction fs with
  | nil => intro st hb; exact ⟨st, rfl⟩
  | cons f fsi ih =>
    intro st hb
    obtain ⟨st1, h1⟩ := processField_ok structs idx cn st f (hb f (List.mem_cons_self _ _))
    obtain ⟨st', h'⟩ := ih st1 (fun g hg => hb g (List.mem_cons_of_mem _ hg))
    refine ⟨st', ?_⟩
    rw [processFields, h1]
    exact h'

theorem processNode_eq (structs : Structs) (idx : Nat) (st : BfsState) (cur : PNode)
    (sdef : Struct) (hg : st.nodes.get? idx = some cur)
    (hl : dictLookup structs cur.name = some sdef) :
    processNode structs idx st = processFields structs idx cur.name st sdef.fields := by
  simp only [processNode, hg, hl]

theorem processNode_ok (structs : Structs) (idx : Nat) (st : BfsState)
    (hnb : NoBracketFields structs)
    (hlt : idx < st.nodes.length) (hn : NamesOk structs st) :
    ∃ st', processNode structs idx st = .ok st' := by
  have hg : st.nodes.get? idx = some (st.nodes.get ⟨idx, hlt⟩) := List.get?_eq_get hlt
  have hc := hn idx _ hg
  obtain ⟨sdef, hsd⟩ := dictContains_some structs _ hc
  have hmem := dictLookup_mem structs _ sdef hsd
  rw [processNode_eq structs idx st _ sdef hg hsd]
  exact processFields_ok structs idx _ sdef.fields st (fun f hf => hnb _ hmem f hf)

theorem bfsRun_no_raise (structs : Structs) (hnb : NoBracketFields structs) :
    ∀ (fuel : Nat) (st : BfsState), QueueOk st → NamesOk structs st →
      ∀ e, bfsRun structs fuel st ≠ .raised e := by
  intro fuel
  induction fuel with
  | zero => intro st hq hn e h; cases h
  | succ n ih =>
    intro st hq hn e h
    rw [bfsRun] at h
    split at h
    · cases h
    · rename_i idx rest hqeq
      have hq' : QueueOk { st with queue := rest } := by
        intro i hi
        exact hq i (by rw [hqeq]; exact List.mem_cons_of_mem _ hi)
      have hn' : NamesOk structs { st with queue := rest } := hn
      have hlt : idx < st.nodes.length := hq idx (by rw [hqeq]; exact List.mem_cons_self _ _)
      obtain ⟨st1, hok⟩ := processNode_ok structs idx { st with queue := rest } hnb hlt hn'
      rw [hok] at h
      have hinv := processNode_metaLe structs idx _ st1 hok
      have hinv2 := processFields_invariants structs idx
      -- invariants after the node step
      have hqn : QueueOk st1 ∧ NamesOk structs st1 := by
        unfold processNode at hok
        split at hok
        · cases hok
        · split at hok
          · cases hok
          · have := processFields_invariants structs idx _ _ _ _ hok
            exact ⟨this.1 hq', this.2 hn'⟩
      exact ih st1 hqn.1 hqn.2 e h

theorem parse_struct_ptr_eq_none (fuel : Nat) (name : String) (structs : Structs)
    (hl : dictLookup structs name = Option.none) :
    parse_struct_ptr fuel name structs = .none := by
  unfold parse_struct_ptr
  rw [hl]

theorem parse_struct_ptr_eq_some (fuel : Nat) (name : String) (structs : Structs)
    (sdef : Struct) (hl : dictLookup structs name = some sdef) :
    parse_struct_ptr fuel name structs
      = match bfsRun structs fuel (⟨[⟨name, sdef.size, []⟩], [0], []⟩ : BfsState) with
        | .timeout _ => .timeout
        | .raised e => .raised e
        | .done st => .tree st.nodes := by
  unfold parse_struct_ptr
  rw [hl]

/-- Claim C5 (amended): `parse_struct_ptr` never raises on catalogues none of
whose field types end in a bracket suffix — malformed pointer syntax degrades
to scalar treatment.  A bracket suffix whose content is not an integer,
however, raises `ValueError`, and a zero count raises `ZeroDivisionError`
(see the counterexample), rather than being degraded. -/
theorem claim_C5 (fuel : Nat) (name : String) (structs : Structs)
    (hnb : NoBracketFields structs) (e : PyErr) :
    parse_struct_ptr fuel name structs ≠ .raised e := by
  cases hl : dictLookup structs name with
  | none =>
    rw [parse_struct_ptr_eq_none fuel name structs hl]
    intro h
    cases h
  | some sdef =>
    rw [parse_struct_ptr_eq_some fuel name structs sdef hl]
    have hq : QueueOk (⟨[⟨name, sdef.size, []⟩], [0], []⟩ : BfsState) := by
      intro i hi
      simp only [List.mem_singleton] at hi
      subst hi
      simp
    have hn : NamesOk structs (⟨[⟨name, sdef.size, []⟩], [0], []⟩ : BfsState) := by
      intro i nd hnd
      cases i with
      | zero =>
        cases hnd
        unfold dictContains
        rw [hl]
        rfl
      | succ m => cases hnd
    have hmain := bfsRun_no_raise structs hnb fuel _ hq hn
    intro h
    cases hrun : bfsRun structs fuel (⟨[⟨name, sdef.size, []⟩], [0], []⟩ : BfsState) with
    | timeout st => rw [hrun] at h; simp at h
    | raised e2 => exact hmain e2 hrun
    | done st => rw [hrun] at h; simp at h

/-- Claim C5, witness: on the bracket-free mutual-cycle catalogue the
resolver completes without raising. -/
theorem claim_C5_witness : parse_struct_ptr 4 "A" catAB ≠ .raised .valueError :=
  claim_C5 4 "A" catAB (by unfold NoBracketFields; decide) .valueError

/-- Claim C6 (amended): `parse_struct_ptr` returns the Python `None` exactly
when the root name is absent from the catalogue; when the root name is
present, any normally-returned (non-raising) result is a tree whose root
node carries the root name and the catalogue entry's declared size. -/
theorem claim_C6 (fuel : Nat) (name : String) (structs : Structs) :
    (parse_struct_ptr fuel name structs = .none ↔ dictLookup structs name = Option.none)
    ∧ (∀ ns, parse_struct_ptr fuel name structs = .tree ns →
        ∃ sdef, dictLookup structs name = some sdef
          ∧ (ns.get? 0).map PNode.name = some name
          ∧ (ns.get? 0).map PNode.size = some sdef.size) := by
  cases hl : dictLookup structs name with
  | none =>
    rw [parse_struct_ptr_eq_none fuel name structs hl]
    refine ⟨⟨fun _ => rfl, fun _ => rfl⟩, ?_⟩
    intro ns h
    cases h
  | some sdef =>
    rw [parse_struct_ptr_eq_some fuel name structs sdef hl]
    constructor
    · constructor
      · intro h
        cases hrun : bfsRun structs fuel (⟨[⟨name, sdef.size, []⟩], [0], []⟩ : BfsState) with
        | timeout st => rw [hrun] at h; simp at h
        | raised e2 => rw [hrun] at h; simp at h
        | done st => rw [hrun] at h; simp at h
      · intro h
        simp at h
    · intro ns h
      cases hrun : bfsRun structs fuel (⟨[⟨name, sdef.size, []⟩], [0], []⟩ : BfsState) with
      | timeout st => rw [hrun] at h; simp at h
      | raised e2 => rw [hrun] at h; simp at h
      | done st =>
        rw [hrun] at h
        simp only [PResult.tree.injEq] at h
        subst h
        have hm := bfsRun_done_metaLe structs fuel _ st hrun
        have h0 := hm.2 0 (by simp)
        exact ⟨sdef, rfl, h0.1, h0.2⟩

/-- Claim C6, witness: instantiating the theorem on the mutual-cycle
catalogue with root `"A"`. -/
theorem claim_C6_witness :
    ∃ sdef, dictLookup catAB "A" = some sdef
      ∧ (([{ name := "A", size := 8, fields := [(0, Slot.nested 1)] },
           { name := "B", size := 8, fields := [(0, Slot.nested 2)] },
           { name := "A", size := 8, fields := [(0, Slot.scalar 8)] }] : List PNode).get? 0).map
          PNode.name = some "A"
      ∧ (([{ name := "A", size := 8, fields := [(0, Slot.nested 1)] },
           { name := "B", size := 8, fields := [(0, Slot.nested 2)] },
           { name := "A", size := 8, fields := [(0, Slot.scalar 8)] }] : List PNode).get? 0).map
          PNode.size = some sdef.size :=
  (claim_C6 10 "A" catAB).2 _ (by decide)

theorem unpickleFields_pickle :
    ∀ (fs : List StructField) (ts : List Tok),
      unpickleFields fs.length ((fs.map pickleField).flatten ++ ts) = some (fs, ts) := by
  intro fs
  induction fs with
  | nil => intro ts; rfl
  | cons f fsi ih =>
    intro ts
    cases f with
    | mk nm ty off sz =>
      simp only [List.length_cons, List.map_cons, List.flatten_cons, pickleField,
        List.append_assoc, List.cons_append, List.nil_append]
      rw [unpickleFields]
      rw [ih ts]
      rfl

theorem unpickleEntries_pickle :
    ∀ (es : List (String × Struct)) (ts : List Tok),
      unpickleEntries es.length ((es.map pickleEntry).flatten ++ ts) = some (es, ts) := by
  intro es
  induction es with
  | nil => intro ts; rfl
  | cons e esi ih =>
    intro ts
    cases e with
    | mk nm sd =>
      cases sd with
      | mk sz fs =>
        simp only [List.length_cons, List.map_cons, List.flatten_cons, pickleEntry,
          List.append_assoc, List.cons_append, List.nil_append]
        rw [unpickleEntries]
        rw [unpickleFields_pickle fs ((esi.map pickleEntry).flatten ++ ts)]
        simp only [Option.bind_eq_bind, Option.some_bind]
        rw [ih ts]
        rfl

/-- Claim C9 (confirmed): deserializing the serialized catalogue restores it
exactly — every structure's size, field list, and field order are preserved. -/
theorem claim_C9 (structs : Structs) :
    restore_object_parse (save_object structs) = some structs := by
  have h := unpickleEntries_pickle structs []
  rw [List.append_nil] at h
  have h2 : (match unpickleEntries structs.length (List.map pickleEntry structs).flatten with
      | some (es, []) => some es
      | _ => none) = some structs := by
    rw [h]
  exact h2

/-- Claim C10 (amended): `restore_object` returns the absent value, without
raising, on a missing cache file (`FileNotFoundError`) and on a truncated
blob (`EOFError`), and returns the stored value on a well-formed blob; a
corrupt blob, however, raises `pickle.UnpicklingError` to the caller. -/
theorem claim_C10 {α : Type} (a : α) :
    restore_object (.absent : CacheFile α) = .ok none
    ∧ restore_object (.truncatedBlob : CacheFile α) = .ok none
    ∧ restore_object (.wellFormed a) = .ok (some a)
    ∧ restore_object (.corruptBlob : CacheFile α) = .error .unpicklingError :=
  ⟨rfl, rfl, rfl, rfl⟩

theorem data_append_ptr (s : String) : (s ++ " *").data = s.data ++ [' ', '*'] := rfl

theorem pyEndsWithChar_append_ptr_bracket (s : String) :
    pyEndsWithChar (s ++ " *") ']' = false := by
  unfold pyEndsWithChar
  have h : (s ++ " *").data = (s.data ++ [' ']) ++ ['*'] := by
    rw [data_append_ptr, List.append_assoc]
    rfl
  rw [h, List.getLast?_concat]
  rfl

theorem pyEndsWithChar_append_ptr_star (s : String) :
    pyEndsWithChar (s ++ " *") '*' = true := by
  unfold pyEndsWithChar
  have h : (s ++ " *").data = (s.data ++ [' ']) ++ ['*'] := by
    rw [data_append_ptr, List.append_assoc]
    rfl
  rw [h, List.getLast?_concat]
  rfl

theorem pySlice_dropLast_append_ptr (s : String) :
    pySlice (s ++ " *") 0 (-1) = ⟨s.data ++ [' ']⟩ := by
  unfold pySlice
  simp only [data_append_ptr]
  have hlen : (s.data ++ [' ', '*']).length = s.data.length + 2 := by
    simp
  rw [hlen]
  have h1 : pySliceIdx (s.data.length + 2) (-1) = s.data.length + 1 := by
    unfold pySliceIdx
    rw [if_pos (by omega)]
    omega
  have h0 : pySliceIdx (s.data.length + 2) 0 = 0 := by
    unfold pySliceIdx
    rw [if_neg (by omega)]
    simp
  rw [h1, h0, List.drop_zero, List.take_append_eq_append_take]
  rw [List.take_of_length_le (by omega)]
  have h2 : s.data.length + 1 - s.data.length = 1 := by omega
  rw [h2]
  rfl

theorem pyStrip_append_space (s : String) : pyStrip ⟨s.data ++ [' ']⟩ = pyStrip s := by
  unfold pyStrip
  simp only
  rw [List.dropWhile_append]
  by_cases he : (s.data.dropWhile pyIsSpace).isEmpty
  · rw [if_pos he]
    have h0 : s.data.dropWhile pyIsSpace = [] := by
      cases hd : s.data.dropWhile pyIsSpace with
      | nil => rfl
      | cons x xs => rw [hd] at he; cases he
    rw [h0]
    rfl
  · rw [if_neg he]
    rw [List.reverse_append]
    have hsp : pyIsSpace ' ' = true := rfl
    simp only [List.reverse_cons, List.reverse_nil, List.nil_append, List.singleton_append]
    rw [List.dropWhile_cons, hsp]
    simp

theorem strippedPtr_append (s : String) (hs : pyStrip s = s) : strippedPtr (s ++ " *") = s := by
  unfold strippedPtr
  rw [pySlice_dropLast_append_ptr, pyStrip_append_space, hs]

theorem scalarLoop_one (idx : Nat) (foff fsize : Int) (st : BfsState) :
    scalarLoop idx foff fsize 1 st = setField st idx foff (.scalar fsize) := by
  have h : foff + (0 : Int) * fsize = foff := by ring
  show setField st idx (foff + (0 : Int) * fsize) (.scalar fsize)
    = setField st idx foff (.scalar fsize)
  rw [h]

theorem unnamed_not_ptr (s : String) (h1 : s = "struct <unnamed>" ∨ s = "union <unnamed>")
    (h2 : pyEndsWithChar s '*' = true) : False := by
  rcases h1 with h | h <;> rw [h] at h2 <;> cases h2

theorem processField_selfPtr (structs : Structs) (idx : Nat) (curName : String)
    (st : BfsState) (f : StructField)
    (ht : f.type = curName ++ " *") (hs : pyStrip curName = curName) :
    processField structs idx curName st f = .ok (setField st idx f.offset (.scalar f.size)) := by
  unfold processField
  have hstar : pyEndsWithChar f.type '*' = true := by
    rw [ht]
    exact pyEndsWithChar_append_ptr_star curName
  rw [if_neg (fun hc => unnamed_not_ptr f.type hc hstar)]
  have hnb : pyEndsWithChar f.type ']' = false := by
    rw [ht]
    exact pyEndsWithChar_append_ptr_bracket curName
  rw [arrayParse_ok_of_noBracket f.type f.size hnb]
  have hstep : ptrStep structs idx curName st f.offset 1 f.type f.size
      = setField st idx f.offset (.scalar f.size) := by
    unfold ptrStep
    rw [hstar]
    rw [ht, strippedPtr_append curName hs]
    rw [if_pos rfl]
    by_cases h1 : pyEndsWithChar curName '*' = true
    · rw [if_neg (by rw [h1]; simp)]
      exact scalarLoop_one idx f.offset f.size st
    · rw [if_pos (by simp at h1; rw [h1]; simp)]
      by_cases h2 : listContains PRIMITIVE_TYPES curName = true
      · rw [if_neg (by rw [h2]; simp)]
        exact scalarLoop_one idx f.offset f.size st
      · rw [if_pos (by simp at h2; rw [h2]; simp)]
        have hinf : infFlag st.parentM curName curName = true := by
          unfold infFlag
          rw [if_pos rfl]
        rw [if_neg (by rw [hinf]; simp)]
        exact scalarLoop_one idx f.offset f.size st
  show Except.ok (ptrStep structs idx curName st f.offset 1 f.type f.size)
    = Except.ok (setField st idx f.offset (Slot.scalar f.size))
  rw [hstep]

/-- Claim C3 (corrected, amended): with the self-pointer field spelled so
that its stripped base type equals the catalogue key (`"Node *"` for key
`"Node"`), the end-to-end example produces exactly
`{0: Scalar(8), 8: Scalar(4)}` with root name `Node` and size 16; and in
general a field whose declared type is the owning node's own type name
followed by `" *"` always contributes a single `Scalar(size)` slot at its
offset — never a `Nested` slot, and nothing is enqueued. -/
theorem claim_C3 :
    parse_struct_ptr 10 "Node" catNodeKeyed
      = .tree [{ name := "Node", size := 16, fields := [(0, Slot.scalar 8), (8, Slot.scalar 4)] }]
    ∧ ∀ (structs : Structs) (idx : Nat) (curName : String) (st : BfsState) (f : StructField),
        f.type = curName ++ " *" → pyStrip curName = curName →
        processField structs idx curName st f
          = .ok (setField st idx f.offset (.scalar f.size)) := by
  constructor
  · decide
  · intro structs idx curName st f ht hs
    exact processField_selfPtr structs idx curName st f ht hs

/-- Claim C3, witness: the general self-reference collapse applied to a
concrete node of type `"S"` with a field typed `"S *"`. -/
theorem claim_C3_witness :
    processField [] 0 "S" (⟨[⟨"S", 8, []⟩], [], []⟩ : BfsState) ⟨"n", "S *", 0, 8⟩
      = .ok (setField (⟨[⟨"S", 8, []⟩], [], []⟩ : BfsState) 0 0 (.scalar 8)) :=
  claim_C3.2 [] 0 "S" _ _ rfl (by decide)

theorem spawnLoop_one_absent (structs : Structs) (idx : Nat) (U : String) (foff fsize : Int)
    (st : BfsState) (habs : dictLookup structs U = Option.none) :
    spawnLoop structs idx U foff fsize 1 st = st := by
  show spawnOne structs idx U foff fsize st ((0 : Int)) = st
  unfold spawnOne
  rw [habs]

/-- Claim C4 (corrected, amended): a field whose bracket-free declared type is
a single pointer to a base type that is neither primitive nor in the
catalogue, and that the cycle check does not flag, contributes *no* slot at
all — the field is skipped, leaving only a new `parent` entry; a bracket-free
*non-pointer* field (of any base type, known or not) does degrade to one
`Scalar(size)` slot at its offset. -/
theorem claim_C4 :
    (∀ (structs : Structs) (idx : Nat) (curName : String) (st : BfsState) (f : StructField),
      pyEndsWithChar f.type ']' = false →
      pyEndsWithChar f.type '*' = true →
      pyEndsWithChar (strippedPtr f.type) '*' = false →
      listContains PRIMITIVE_TYPES (strippedPtr f.type) = false →
      dictLookup structs (strippedPtr f.type) = Option.none →
      infFlag st.parentM curName (strippedPtr f.type) = false →
      processField structs idx curName st f
        = .ok { st with parentM := dictInsert st.parentM (strippedPtr f.type) curName })
    ∧ (∀ (structs : Structs) (idx : Nat) (curName : String) (st : BfsState) (f : StructField),
      ¬ (f.type = "struct <unnamed>" ∨ f.type = "union <unnamed>") →
      pyEndsWithChar f.type ']' = false →
      pyEndsWithChar f.type '*' = false →
      processField structs idx curName st f
        = .ok (setField st idx f.offset (.scalar f.size))) := by
  constructor
  · intro structs idx curName st f hb hp hdp hprim habs hinf
    unfold processField
    rw [if_neg (fun hc => unnamed_not_ptr f.type hc hp)]
    rw [arrayParse_ok_of_noBracket f.type f.size hb]
    have hstep : ptrStep structs idx curName st f.offset 1 f.type f.size
        = { st with parentM := dictInsert st.parentM (strippedPtr f.type) curName } := by
      unfold ptrStep
      rw [hp, if_pos rfl]
      rw [if_pos (by rw [hdp]; simp)]
      rw [if_pos (by rw [hprim]; simp)]
      rw [if_pos (by rw [hinf]; simp)]
      exact spawnLoop_one_absent structs idx _ f.offset f.size _ habs
    show Except.ok (ptrStep structs idx curName st f.offset 1 f.type f.size)
      = Except.ok { st with parentM := dictInsert st.parentM (strippedPtr f.type) curName }
    rw [hstep]
  · intro structs idx curName st f hun hb hnp
    unfold processField
    rw [if_neg hun]
    rw [arrayParse_ok_of_noBracket f.type f.size hb]
    have hstep : ptrStep structs idx curName st f.offset 1 f.type f.size
        = setField st idx f.offset (.scalar f.size) := by
      unfold ptrStep
      rw [hnp]
      rw [if_neg (by simp)]
      exact scalarLoop_one idx f.offset f.size st
    show Except.ok (ptrStep structs idx curName st f.offset 1 f.type f.size)
      = Except.ok (setField st idx f.offset (.scalar f.size))
    rw [hstep]

/-- Claim C4, witness: the pointer-to-unknown-type case on a concrete state
(field `"Foo *"`, empty catalogue), and the non-pointer case on a plain
`"mystery"`-typed field. -/
theorem claim_C4_witness :
    processField [] 0 "S" (⟨[⟨"S", 8, []⟩], [], []⟩ : BfsState) ⟨"p", "Foo *", 0, 8⟩
      = .ok (⟨[⟨"S", 8, []⟩], [], [("Foo", "S")]⟩ : BfsState)
    ∧ processField [] 0 "S" (⟨[⟨"S", 8, []⟩], [], []⟩ : BfsState) ⟨"q", "mystery", 4, 2⟩
      = .ok (setField (⟨[⟨"S", 8, []⟩], [], []⟩ : BfsState) 0 4 (.scalar 2)) :=
  ⟨claim_C4.1 [] 0 "S" _ _ (by decide) (by decide) (by decide) (by decide) (by decide) (by decide),
   claim_C4.2 [] 0 "S" _ _ (by decide) (by decide) (by decide)⟩

/-- Claim C7 (confirmed): a field declared `int [4]` with reported total size
16 at any offset `F` contributes exactly four `Scalar(4)` slots at offsets
`F`, `F+4`, `F+8`, `F+12` — in any catalogue, node, and state (the array
count 4 comes from the bracket suffix and the element size is `16 // 4`);
and the end-to-end run on `catIntArray` shows the four slots at 4, 8, 12, 16. -/
theorem claim_C7 :
    (∀ (structs : Structs) (idx : Nat) (cn : String) (st : BfsState) (nm : String) (F : Int),
      processField structs idx cn st ⟨nm, "int [4]", F, 16⟩
        = .ok (setField (setField (setField (setField st idx F (.scalar 4)) idx
            (F + 4) (.scalar 4)) idx (F + 8) (.scalar 4)) idx (F + 12) (.scalar 4)))
    ∧ parse_struct_ptr 10 "T" catIntArray
        = .tree [⟨"T", 24, [(4, Slot.scalar 4), (8, Slot.scalar 4),
            (12, Slot.scalar 4), (16, Slot.scalar 4)]⟩] := by
  constructor
  · intro structs idx cn st nm F
    show Except.ok (setField (setField (setField (setField st idx (F + (0 : Int) * 4)
        (.scalar 4)) idx (F + (1 : Int) * 4) (.scalar 4)) idx (F + (2 : Int) * 4)
        (.scalar 4)) idx (F + (3 : Int) * 4) (.scalar 4))
      = Except.ok (setField (setField (setField (setField st idx F (.scalar 4)) idx
          (F + 4) (.scalar 4)) idx (F + 8) (.scalar 4)) idx (F + 12) (.scalar 4))
    rw [show F + (0 : Int) * 4 = F by ring, show F + (1 : Int) * 4 = F + 4 by ring,
      show F + (2 : Int) * 4 = F + 8 by ring, show F + (3 : Int) * 4 = F + 12 by ring]
  · decide

theorem dictLookup_dictInsert_self {κ α : Type} [DecidableEq κ] :
    ∀ (m : List (κ × α)) (k : κ) (v : α), dictLookup (dictInsert m k v) k = some v := by
  intro m
  induction m with
  | nil => intro k v; simp [dictInsert, dictLookup]
  | cons hd tl ih =>
    intro k v
    by_cases hk : hd.1 = k
    · simp only [dictInsert]
      rw [if_pos hk]
      simp [dictLookup]
    · simp only [dictInsert]
      rw [if_neg hk]
      simp only [dictLookup]
      rw [if_neg hk]
      exact ih k v

theorem dictLookup_dictInsert_ne {κ α : Type} [DecidableEq κ] :
    ∀ (m : List (κ × α)) (k k' : κ) (v : α), k' ≠ k →
      dictLookup (dictInsert m k v) k' = dictLookup m k' := by
  intro m
  induction m with
  | nil =>
    intro k k' v hne
    simp only [dictInsert, dictLookup]
    rw [if_neg (fun hc => hne hc.symm)]
  | cons hd tl ih =>
    intro k k' v hne
    by_cases hk : hd.1 = k
    · simp only [dictInsert]
      rw [if_pos hk]
      simp only [dictLookup]
      rw [if_neg (fun hc => hne hc.symm)]
      rw [if_neg (fun hc => hne (by rw [← hk]; exact hc.symm))]
    · simp only [dictInsert]
      rw [if_neg hk]
      simp only [dictLookup]
      by_cases hk' : hd.1 = k'
      · rw [if_pos hk', if_pos hk']
      · rw [if_neg hk', if_neg hk']
        exact ih k k' v hne

theorem rowsFor_append_one (consumed : List RawRow) (r : RawRow) (nm : String) :
    rowsFor (consumed ++ [r]) nm
      = rowsFor consumed nm ++ (if r.s = nm then [r] else []) := by
  unfold rowsFor
  rw [List.filter_append]
  congr 1
  by_cases h : r.s = nm
  · rw [if_pos h]
    simp [List.filter, h]
  · rw [if_neg h]
    simp [List.filter, h]

theorem rowFields_append_one :
    ∀ (l : List RawRow) (fs : List StructField) (r : RawRow) (f : StructField),
      rowFields l = .ok fs → rowField r = .ok f →
      rowFields (l ++ [r]) = .ok (fs ++ [f]) := by
  intro l
  induction l with
  | nil =>
    intro fs r f hl hr
    cases hl
    show rowFields [r] = .ok ([] ++ [f])
    rw [rowFields, hr, rowFields]
    rfl
  | cons x xs ih =>
    intro fs r f hl hr
    rw [rowFields] at hl
    cases hx : rowField x with
    | error e => rw [hx] at hl; cases hl
    | ok fx =>
      rw [hx] at hl
      cases hxs : rowFields xs with
      | error e => rw [hxs] at hl; cases hl
      | ok fxs =>
        rw [hxs] at hl
        cases hl
        rw [List.cons_append, rowFields]
        simp only [hx, ih fxs r f hxs hr]
        rfl

theorem buildInv_row (consumed : List RawRow) (acc : Structs) (r : RawRow) (acc' : Structs)
    (hrow : extract_structs_row acc r = .ok acc') (hinv : BuildInv consumed acc) :
    BuildInv (consumed ++ [r]) acc' := by
  unfold extract_structs_row at hrow
  by_cases hun : r.s = "struct <unnamed>"
  · rw [if_pos hun] at hrow
    cases hrow
    constructor
    · intro nm sd hl
      have h := hinv.1 nm sd hl
      rw [rowsFor_append_one]
      rw [if_neg (by rw [hun]; exact fun hc => h.1 hc.symm)]
      rw [List.append_nil]
      exact h
    · intro nm hnm hl
      rw [rowsFor_append_one, if_neg (by rw [hun]; exact fun hc => hnm hc.symm),
        List.append_nil]
      exact hinv.2 nm hnm hl
  · rw [if_neg hun] at hrow
    cases hee : ensureEntry acc r with
    | error e => simp only [hee] at hrow; cases hrow
    | ok acc1 =>
      simp only [hee] at hrow
      cases hfo : pyInt r.foff with
      | error e => simp only [hfo] at hrow; cases hrow
      | ok foffv =>
        simp only [hfo] at hrow
        cases hfs : pyInt r.fsize with
        | error e => simp only [hfs] at hrow; cases hrow
        | ok fsizev =>
          simp only [hfs] at hrow
          cases hl1 : dictLookup acc1 r.s with
          | none => simp only [hl1] at hrow; cases hrow
          | some sd0 =>
            simp only [hl1, Except.ok.injEq] at hrow
            subst hrow
            have hrf : rowField r = .ok ⟨r.fname, r.ftype, foffv, fsizev⟩ := by
              unfold rowField
              rw [hfo, hfs]
            -- facts about acc1 and sd0, by whether r.s was already present
            have hmain : rowFields (rowsFor consumed r.s) = .ok sd0.fields
                ∧ ((∃ r0 rest, rowsFor consumed r.s = r0 :: rest ∧ pyInt r0.sz = .ok sd0.size)
                   ∨ (rowsFor consumed r.s = [] ∧ pyInt r.sz = .ok sd0.size))
                ∧ ∀ nm, nm ≠ r.s → dictLookup acc1 nm = dictLookup acc nm := by
              unfold ensureEntry at hee
              by_cases hc : dictContains acc r.s = true
              · rw [if_pos hc] at hee
                cases hee
                have h := hinv.1 r.s sd0 hl1
                exact ⟨h.2.1, Or.inl h.2.2, fun nm hnm => rfl⟩
              · rw [if_neg hc] at hee
                cases hsz : pyInt r.sz with
                | error e => rw [hsz] at hee; cases hee
                | ok szv =>
                  rw [hsz] at hee
                  cases hee
                  have hlacc : dictLookup acc r.s = Option.none := by
                    cases hx : dictLookup acc r.s with
                    | none => rfl
                    | some v =>
                      exact absurd (by unfold dictContains; rw [hx]; rfl) hc
                  have hempty := hinv.2 r.s hun hlacc
                  have : dictLookup (dictInsert acc r.s (⟨szv, []⟩ : Struct)) r.s
                      = some ⟨szv, []⟩ := dictLookup_dictInsert_self acc r.s _
                  rw [hl1] at this
                  cases this
                  refine ⟨by rw [hempty]; rfl, Or.inr ⟨hempty, rfl⟩, ?_⟩
                  intro nm hnm
                  exact dictLookup_dictInsert_ne acc r.s nm _ hnm
            constructor
            · intro nm sd hl
              by_cases hnm : nm = r.s
              · subst hnm
                rw [dictLookup_dictInsert_self] at hl
                cases hl
                refine ⟨hun, ?_, ?_⟩
                · rw [rowsFor_append_one, if_pos rfl]
                  exact rowFields_append_one _ _ _ _ hmain.1 hrf
                · rcases hmain.2.1 with ⟨r0, rest, hr0, hsz0⟩ | ⟨hempty, hszr⟩
                  · refine ⟨r0, rest ++ [r], ?_, hsz0.trans rfl⟩
                    rw [rowsFor_append_one, if_pos rfl, hr0]
                    rfl
                  · refine ⟨r, [], ?_, hszr.trans rfl⟩
                    rw [rowsFor_append_one, if_pos rfl, hempty]
                    rfl
              · rw [dictLookup_dictInsert_ne acc1 r.s nm _ hnm] at hl
                rw [hmain.2.2 nm hnm] at hl
                have h := hinv.1 nm sd hl
                rw [rowsFor_append_one, if_neg (fun hc => hnm hc.symm), List.append_nil]
                exact h
            · intro nm hnm hl
              by_cases hnmr : nm = r.s
              · subst hnmr
                rw [dictLookup_dictInsert_self] at hl
                cases hl
              · rw [dictLookup_dictInsert_ne acc1 r.s nm _ hnmr] at hl
                rw [hmain.2.2 nm hnmr] at hl
                rw [rowsFor_append_one, if_neg (fun hc => hnmr hc.symm), List.append_nil]
                exact hinv.2 nm hnm hl

theorem buildInv_go :
    ∀ (rows : List RawRow) (acc : Structs) (consumed : List RawRow) (cat : Structs),
      BuildInv consumed acc → extract_structs_go acc rows = .ok cat →
      BuildInv (consumed ++ rows) cat := by
  intro rows
  induction rows with
  | nil =>
    intro acc consumed cat hinv h
    cases h
    rw [List.append_nil]
    exact hinv
  | cons r rs ih =>
    intro acc consumed cat hinv h
    rw [extract_structs_go] at h
    cases hr : extract_structs_row acc r with
    | error e => rw [hr] at h; cases h
    | ok acc1 =>
      rw [hr] at h
      have h1 := buildInv_row consumed acc r acc1 hr hinv
      have h2 := ih acc1 (consumed ++ [r]) cat h1 h
      rw [List.append_assoc] at h2
      exact h2

/-- Claim C8 (corrected, amended): `extract_structs` appends each structure's
fields in the order their rows are encountered (offsets and sizes through
`int`), and when two rows declare the same structure, the catalogue entry
carries the *first*-seen size, not the last-seen one; duplicate declarations
are not an error. -/
theorem claim_C8 (rows : List RawRow) (cat : Structs) (nm : String) (sd : Struct)
    (hbuild : extract_structs rows = .ok cat) (hlook : dictLookup cat nm = some sd) :
    rowFields (rowsFor rows nm) = .ok sd.fields
    ∧ ∃ r rest, rowsFor rows nm = r :: rest ∧ pyInt r.sz = .ok sd.size := by
  have hinv0 : BuildInv [] [] := by
    constructor
    · intro nm' sd' hl
      cases hl
    · intro nm' hnm hl
      rfl
  have h := buildInv_go rows [] [] cat hinv0 hbuild
  rw [List.nil_append] at h
  have h2 := h.1 nm sd hlook
  exact ⟨h2.2.1, h2.2.2⟩

/-- Claim C8, witness: on the duplicate-size rows, the fields come out in
row order and the size is the one of the first row (`8`). -/
theorem claim_C8_witness :
    rowFields (rowsFor dupRows "A") = .ok [⟨"f1", "int", 0, 4⟩, ⟨"f2", "int", 4, 4⟩]
    ∧ ∃ r rest, rowsFor dupRows "A" = r :: rest ∧ pyInt r.sz = .ok 8 :=
  claim_C8 dupRows dupResult "A" ⟨8, [⟨"f1", "int", 0, 4⟩, ⟨"f2", "int", 4, 4⟩]⟩
    (by decide) (by decide)

theorem processFields_one (structs : Structs) (idx : Nat) (cn : String) (st st' : BfsState)
    (f : StructField) (h : processField structs idx cn st f = .ok st') :
    processFields structs idx cn st [f] = .ok st' := by
  rw [processFields]
  simp only [h]
  rfl

theorem bfsRun_step (structs : Structs) (n : Nat) (st st1 : BfsState) (idx : Nat)
    (rest : List Nat) (hq : st.queue = idx :: rest)
    (hp : processNode structs idx { st with queue := rest } = .ok st1) :
    bfsRun structs (n + 1) st = bfsRun structs n st1 := by
  rw [bfsRun, hq]
  simp only [hp]

theorem bfsRun_empty (structs : Structs) (n : Nat) (st : BfsState) (hq : st.queue = []) :
    bfsRun structs (n + 1) st = .done st := by
  rw [bfsRun, hq]

theorem processField_spawn (structs : Structs) (idx : Nat) (curName U : String)
    (st : BfsState) (f : StructField) (sdef : Struct) (stA : BfsState)
    (hb : pyEndsWithChar f.type ']' = false)
    (hp : pyEndsWithChar f.type '*' = true)
    (hU : strippedPtr f.type = U)
    (hdp : pyEndsWithChar U '*' = false)
    (hprim : listContains PRIMITIVE_TYPES U = false)
    (hinf : infFlag st.parentM curName U = false)
    (hlook : dictLookup structs U = some sdef)
    (hstA : stA = setField ⟨st.nodes ++ [⟨U, sdef.size, []⟩], st.queue,
                    dictInsert st.parentM U curName⟩ idx
                  (f.offset + 0 * f.size) (.nested st.nodes.length)) :
    processField structs idx curName st f
      = .ok ⟨stA.nodes, stA.queue ++ [st.nodes.length], stA.parentM⟩ := by
  subst hstA
  unfold processField
  rw [if_neg (fun hc => unnamed_not_ptr f.type hc hp)]
  rw [arrayParse_ok_of_noBracket f.type f.size hb]
  have hstep : ptrStep structs idx curName st f.offset 1 f.type f.size
      = (let stA := setField ⟨st.nodes ++ [⟨U, sdef.size, []⟩], st.queue,
                      dictInsert st.parentM U curName⟩ idx
                    (f.offset + 0 * f.size) (.nested st.nodes.length)
         (⟨stA.nodes, stA.queue ++ [st.nodes.length], stA.parentM⟩ : BfsState)) := by
    unfold ptrStep
    rw [hp, if_pos rfl]
    rw [hU]
    rw [if_pos (by rw [hdp]; simp)]
    rw [if_pos (by rw [hprim]; simp)]
    rw [if_pos (by rw [hinf]; simp)]
    show spawnOne structs idx U f.offset f.size
        ⟨st.nodes, st.queue, dictInsert st.parentM U curName⟩ ((0 : Int)) = _
    unfold spawnOne
    rw [hlook]
  show Except.ok (ptrStep structs idx curName st f.offset 1 f.type f.size) = _
  rw [hstep]

theorem processField_scalar_collapse (structs : Structs) (idx : Nat) (curName U : String)
    (st : BfsState) (f : StructField)
    (hb : pyEndsWithChar f.type ']' = false)
    (hp : pyEndsWithChar f.type '*' = true)
    (hU : strippedPtr f.type = U)
    (hdp : pyEndsWithChar U '*' = false)
    (hprim : listContains PRIMITIVE_TYPES U = false)
    (hinf : infFlag st.parentM curName U = true) :
    processField structs idx curName st f
      = .ok (setField st idx f.offset (.scalar f.size)) := by
  unfold processField
  rw [if_neg (fun hc => unnamed_not_ptr f.type hc hp)]
  rw [arrayParse_ok_of_noBracket f.type f.size hb]
  have hstep : ptrStep structs idx curName st f.offset 1 f.type f.size
      = setField st idx f.offset (.scalar f.size) := by
    unfold ptrStep
    rw [hp, if_pos rfl]
    rw [hU]
    rw [if_pos (by rw [hdp]; simp)]
    rw [if_pos (by rw [hprim]; simp)]
    rw [if_neg (by rw [hinf]; simp)]
    exact scalarLoop_one idx f.offset f.size st
  show Except.ok (ptrStep structs idx curName st f.offset 1 f.type f.size) = _
  rw [hstep]
theorem parse_struct_ptr_done (fuel : Nat) (name : String) (structs : Structs)
    (sdef : Struct) (stF : BfsState)
    (hl : dictLookup structs name = some sdef)
    (hrun : bfsRun structs fuel (⟨[⟨name, sdef.size, []⟩], [0], []⟩ : BfsState) = .done stF) :
    parse_struct_ptr fuel name structs = .tree stF.nodes := by
  unfold parse_struct_ptr
  rw [hl]
  show (match bfsRun structs fuel (⟨[⟨name, sdef.size, []⟩], [0], []⟩ : BfsState) with
        | .timeout _ => PResult.timeout
        | .raised e => PResult.raised e
        | .done st => PResult.tree st.nodes) = PResult.tree stF.nodes
  rw [hrun]

/-- Claim C2 (corrected, amended): for every catalogue whose entry `A` has the
single field of type `B *` and whose entry `B` has the single field of type
`A *` (arbitrary sizes, offsets and field names, any entry order), resolving
`A` gives a root for `A` whose slot is `Nested` with child `B`, and that
child's slot for its `A *` field is itself `Nested` — a further child for `A`
whose own `B *` field is the one collapsed to `Scalar`.  The cycle is broken
two hops below the root, not one as claimed. -/
theorem claim_C2 (structs : Structs) (sa sb oa ob fa fb : Int) (na nb : String)
    (hA : dictLookup structs "A" = some ⟨sa, [⟨na, "B *", oa, fa⟩]⟩)
    (hB : dictLookup structs "B" = some ⟨sb, [⟨nb, "A *", ob, fb⟩]⟩) :
    parse_struct_ptr 4 "A" structs
      = .tree [⟨"A", sa, [(oa, Slot.nested 1)]⟩,
               ⟨"B", sb, [(ob, Slot.nested 2)]⟩,
               ⟨"A", sa, [(oa, Slot.scalar fa)]⟩] := by
  have hf1 : processField structs 0 "A" (⟨[⟨"A", sa, []⟩], [], []⟩ : BfsState)
      (⟨na, "B *", oa, fa⟩ : StructField)
      = .ok (⟨[⟨"A", sa, [(oa + 0 * fa, Slot.nested 1)]⟩, ⟨"B", sb, []⟩],
             [1], [("B", "A")]⟩ : BfsState) :=
    processField_spawn structs 0 "A" "B" _ _ ⟨sb, [⟨nb, "A *", ob, fb⟩]⟩
      (⟨[⟨"A", sa, [(oa + 0 * fa, Slot.nested 1)]⟩, ⟨"B", sb, []⟩], [], [("B", "A")]⟩ : BfsState)
      rfl rfl rfl rfl rfl rfl hB rfl
  have hn1 : processNode structs 0 (⟨[⟨"A", sa, []⟩], [], []⟩ : BfsState)
      = .ok (⟨[⟨"A", sa, [(oa + 0 * fa, Slot.nested 1)]⟩, ⟨"B", sb, []⟩],
             [1], [("B", "A")]⟩ : BfsState) := by
    rw [processNode_eq structs 0 (⟨[⟨"A", sa, []⟩], [], []⟩ : BfsState)
          ⟨"A", sa, []⟩ ⟨sa, [⟨na, "B *", oa, fa⟩]⟩ rfl hA]
    exact processFields_one structs 0 "A" _ _ _ hf1
  have hf2 : processField structs 1 "B"
      (⟨[⟨"A", sa, [(oa + 0 * fa, Slot.nested 1)]⟩, ⟨"B", sb, []⟩],
        [], [("B", "A")]⟩ : BfsState)
      (⟨nb, "A *", ob, fb⟩ : StructField)
      = .ok (⟨[⟨"A", sa, [(oa + 0 * fa, Slot.nested 1)]⟩,
               ⟨"B", sb, [(ob + 0 * fb, Slot.nested 2)]⟩,
               ⟨"A", sa, []⟩],
             [2], [("B", "A"), ("A", "B")]⟩ : BfsState) :=
    processField_spawn structs 1 "B" "A" _ _ ⟨sa, [⟨na, "B *", oa, fa⟩]⟩
      (⟨[⟨"A", sa, [(oa + 0 * fa, Slot.nested 1)]⟩,
         ⟨"B", sb, [(ob + 0 * fb, Slot.nested 2)]⟩,
         ⟨"A", sa, []⟩], [], [("B", "A"), ("A", "B")]⟩ : BfsState)
      rfl rfl rfl rfl rfl rfl hA rfl
  have hn2 : processNode structs 1
      (⟨[⟨"A", sa, [(oa + 0 * fa, Slot.nested 1)]⟩, ⟨"B", sb, []⟩],
        [], [("B", "A")]⟩ : BfsState)
      = .ok (⟨[⟨"A", sa, [(oa + 0 * fa, Slot.nested 1)]⟩,
               ⟨"B", sb, [(ob + 0 * fb, Slot.nested 2)]⟩,
               ⟨"A", sa, []⟩],
             [2], [("B", "A"), ("A", "B")]⟩ : BfsState) := by
    rw [processNode_eq structs 1
          (⟨[⟨"A", sa, [(oa + 0 * fa, Slot.nested 1)]⟩, ⟨"B", sb, []⟩],
            [], [("B", "A")]⟩ : BfsState)
          ⟨"B", sb, []⟩ ⟨sb, [⟨nb, "A *", ob, fb⟩]⟩ rfl hB]
    exact processFields_one structs 1 "B" _ _ _ hf2
  have hf3 : processField structs 2 "A"
      (⟨[⟨"A", sa, [(oa + 0 * fa, Slot.nested 1)]⟩,
         ⟨"B", sb, [(ob + 0 * fb, Slot.nested 2)]⟩,
         ⟨"A", sa, []⟩],
        [], [("B", "A"), ("A", "B")]⟩ : BfsState)
      (⟨na, "B *", oa, fa⟩ : StructField)
      = .ok (⟨[⟨"A", sa, [(oa + 0 * fa, Slot.nested 1)]⟩,
               ⟨"B", sb, [(ob + 0 * fb, Slot.nested 2)]⟩,
               ⟨"A", sa, [(oa, Slot.scalar fa)]⟩],
             [], [("B", "A"), ("A", "B")]⟩ : BfsState) :=
    processField_scalar_collapse structs 2 "A" "B" _ _ rfl rfl rfl rfl rfl rfl
  have hn3 : processNode structs 2
      (⟨[⟨"A", sa, [(oa + 0 * fa, Slot.nested 1)]⟩,
         ⟨"B", sb, [(ob + 0 * fb, Slot.nested 2)]⟩,
         ⟨"A", sa, []⟩],
        [], [("B", "A"), ("A", "B")]⟩ : BfsState)
      = .ok (⟨[⟨"A", sa, [(oa + 0 * fa, Slot.nested 1)]⟩,
               ⟨"B", sb, [(ob + 0 * fb, Slot.nested 2)]⟩,
               ⟨"A", sa, [(oa, Slot.scalar fa)]⟩],
             [], [("B", "A"), ("A", "B")]⟩ : BfsState) := by
    rw [processNode_eq structs 2
          (⟨[⟨"A", sa, [(oa + 0 * fa, Slot.nested 1)]⟩,
             ⟨"B", sb, [(ob + 0 * fb, Slot.nested 2)]⟩,
             ⟨"A", sa, []⟩],
            [], [("B", "A"), ("A", "B")]⟩ : BfsState)
          ⟨"A", sa, []⟩ ⟨sa, [⟨na, "B *", oa, fa⟩]⟩ rfl hA]
    exact processFields_one structs 2 "A" _ _ _ hf3
  have hrun : bfsRun structs 4 (⟨[⟨"A", sa, []⟩], [0], []⟩ : BfsState)
      = .done (⟨[⟨"A", sa, [(oa + 0 * fa, Slot.nested 1)]⟩,
                 ⟨"B", sb, [(ob + 0 * fb, Slot.nested 2)]⟩,
                 ⟨"A", sa, [(oa, Slot.scalar fa)]⟩],
               [], [("B", "A"), ("A", "B")]⟩ : BfsState) := by
    rw [bfsRun_step structs 3 _ _ 0 [] rfl hn1]
    rw [bfsRun_step structs 2 _ _ 1 [] rfl hn2]
    rw [bfsRun_step structs 1 _ _ 2 [] rfl hn3]
    exact bfsRun_empty structs 0 _ rfl
  rw [parse_struct_ptr_done 4 "A" structs ⟨sa, [⟨na, "B *", oa, fa⟩]⟩ _ hA hrun]
  show PResult.tree [⟨"A", sa, [(oa + 0 * fa, Slot.nested 1)]⟩,
                     ⟨"B", sb, [(ob + 0 * fb, Slot.nested 2)]⟩,
                     ⟨"A", sa, [(oa, Slot.scalar fa)]⟩] = _
  rw [show oa + 0 * fa = oa from by ring, show ob + 0 * fb = ob from by ring]

theorem claim_C2_witness :
    dictLookup catAB "A" = some ⟨8, [⟨"b", "B *", 0, 8⟩]⟩
    ∧ parse_struct_ptr 4 "A" catAB
        = .tree [⟨"A", 8, [(0, Slot.nested 1)]⟩,
                 ⟨"B", 8, [(0, Slot.nested 2)]⟩,
                 ⟨"A", 8, [(0, Slot.scalar 8)]⟩] :=
  ⟨rfl, claim_C2 catAB 8 8 0 0 8 8 "b" "a" rfl rfl⟩
theorem dictLookup_eq_none_of_not_mem {κ α : Type} [DecidableEq κ] (m : List (κ × α))
    (k : κ) (h : k ∉ m.map Prod.fst) : dictLookup m k = Option.none := by
  cases hl : dictLookup m k with
  | none => rfl
  | some v => exact absurd (dictLookup_mem_keys m k v hl) h

theorem walkMeasure_le (parentM : List (String × String)) (par : String)
    (seen : List String) : walkMeasure parentM par seen ≤ parentM.length + 1 := by
  unfold walkMeasure
  have h1 : ((parentM.map Prod.fst).toFinset \ seen.toFinset).card ≤ parentM.length := by
    calc ((parentM.map Prod.fst).toFinset \ seen.toFinset).card
        ≤ (parentM.map Prod.fst).toFinset.card := Finset.card_le_card Finset.sdiff_subset
      _ ≤ (parentM.map Prod.fst).length := (parentM.map Prod.fst).toFinset_card_le
      _ = parentM.length := List.length_map _ _
  have h2 : (if par ∈ parentM.map Prod.fst then 1 else 0) ≤ 1 := by
    split <;> omega
  omega

theorem walkMeasure_decrease (parentM : List (String × String)) (par newpar : String)
    (seen : List String) (hlook : dictLookup parentM par = some newpar)
    (hseen : listContains seen newpar = false) :
    walkMeasure parentM newpar (newpar :: seen) < walkMeasure parentM par seen := by
  have hpar : par ∈ parentM.map Prod.fst := dictLookup_mem_keys _ _ _ hlook
  have hnp : newpar ∉ seen := by
    intro hmem
    have ht : listContains seen newpar = true := by
      simp only [listContains, List.any_eq_true, decide_eq_true_eq]
      exact ⟨newpar, hmem, rfl⟩
    rw [ht] at hseen
    cases hseen
  unfold walkMeasure
  rw [if_pos hpar]
  by_cases hk : newpar ∈ parentM.map Prod.fst
  · rw [if_pos hk]
    have hmem : newpar ∈ (parentM.map Prod.fst).toFinset \ seen.toFinset := by
      rw [Finset.mem_sdiff, List.mem_toFinset, List.mem_toFinset]
      exact ⟨hk, hnp⟩
    have hlt : ((parentM.map Prod.fst).toFinset \ (newpar :: seen).toFinset).card
        < ((parentM.map Prod.fst).toFinset \ seen.toFinset).card := by
      rw [List.toFinset_cons, Finset.sdiff_insert]
      exact Finset.card_erase_lt_of_mem hmem
    omega
  · rw [if_neg hk]
    have hle : ((parentM.map Prod.fst).toFinset \ (newpar :: seen).toFinset).card
        ≤ ((parentM.map Prod.fst).toFinset \ seen.toFinset).card := by
      apply Finset.card_le_card
      rw [List.toFinset_cons]
      exact Finset.sdiff_subset_sdiff (Finset.Subset.refl _) (Finset.subset_insert _ _)
    omega

theorem walkSeenF_congr (parentM : List (String × String)) (ftype : String) :
    ∀ (n₁ n₂ : Nat) (par : String) (seen : List String),
      walkMeasure parentM par seen ≤ n₁ → walkMeasure parentM par seen ≤ n₂ →
      walkSeenF parentM ftype n₁ par seen = walkSeenF parentM ftype n₂ par seen := by
  intro n₁
  induction n₁ with
  | zero =>
    intro n₂ par seen h1 h2
    have hpar : par ∉ parentM.map Prod.fst := by
      intro hmem
      unfold walkMeasure at h1
      rw [if_pos hmem] at h1
      omega
    have hlook := dictLookup_eq_none_of_not_mem parentM par hpar
    cases n₂ with
    | zero => rfl
    | succ m => simp only [walkSeenF, hlook]
  | succ n ih =>
    intro n₂ par seen h1 h2
    cases n₂ with
    | zero =>
      have hpar : par ∉ parentM.map Prod.fst := by
        intro hmem
        unfold walkMeasure at h2
        rw [if_pos hmem] at h2
        omega
      have hlook := dictLookup_eq_none_of_not_mem parentM par hpar
      simp only [walkSeenF, hlook]
    | succ m =>
      cases hlook : dictLookup parentM par with
      | none => simp only [walkSeenF, hlook]
      | some newpar =>
        simp only [walkSeenF, hlook]
        by_cases hf : newpar = ftype
        · rw [if_pos hf, if_pos hf]
        · rw [if_neg hf, if_neg hf]
          cases hseen : listContains seen newpar with
          | true => simp
          | false =>
            simp only [Bool.false_eq_true, if_false]
            by_cases hp : newpar = par
            · rw [if_pos hp, if_pos hp]
            · rw [if_neg hp, if_neg hp]
              have hdec := walkMeasure_decrease parentM par newpar seen hlook hseen
              exact ih m newpar (newpar :: seen) (by omega) (by omega)

theorem walkSeenF_stable (parentM : List (String × String)) (ftype par : String)
    (seen : List String) (n : Nat) (h : parentM.length + 1 ≤ n) :
    walkSeenF parentM ftype n par seen = walkSeen parentM ftype par seen :=
  walkSeenF_congr parentM ftype n (parentM.length + 1) par seen
    (le_trans (walkMeasure_le parentM par seen) h) (walkMeasure_le parentM par seen)
theorem bfsRun_raises (structs : Structs) (n : Nat) (st : BfsState) (idx : Nat)
    (rest : List Nat) (e : PyErr) (hq : st.queue = idx :: rest)
    (hp : processNode structs idx { st with queue := rest } = .error e) :
    bfsRun structs (n + 1) st = .raised e := by
  rw [bfsRun, hq]
  simp only [hp]

/-- Claim C1: on the catalogue whose only field is typed `"int []"`, every
run of `parse_struct_ptr` (any positive iteration bound) aborts with
`ValueError` on the very first dequeued node: the queue never empties and no
tree is returned. -/
theorem claim_C1_theorem :
    ∀ fuel : Nat, parse_struct_ptr (fuel + 1) "S" catBadArray = .raised .valueError := by
  intro fuel
  rw [parse_struct_ptr_eq_some (fuel + 1) "S" catBadArray ⟨8, [⟨"f", "int []", 0, 8⟩]⟩
    (by decide)]
  rw [bfsRun_raises catBadArray fuel _ 0 [] .valueError rfl (by decide)]
